import Mathlib

/-!
Verification of the MAGRAY_Cli repository's Python utility scripts.

Strings are modelled as `List Char`.  Python `str.find`, the regular
expressions used by the CTL parsers, `json.loads`, the schema validators and
the file-system effects of the sync daemon and of the Cursor-history restore
script are shallowly embedded as executable Lean functions, translated
directly from the source files under `docs-daemon-python/`, `scripts/ci/` and
`restore_from_cursor_history.py`.

The file is organised as: all definitions first, then all theorems.
-/

set_option maxHeartbeats 4000000

namespace MagraySpec

/-! ## Definitions -/

/-! ### A linear scan primitive

`scanFind p start fuel` returns the least index `i` with `start ≤ i <
start + fuel` and `p i = true`, mirroring the leftmost-match discipline of
Python's `str.find` and `re.search`. -/

def scanFind (p : Nat → Bool) : Nat → Nat → Option Nat
  | _, 0 => none
  | start, fuel+1 => if p start then some start else scanFind p (start+1) fuel

/-- `pat` occurs in `s` starting at character index `i`. -/
def occursAt (pat s : List Char) (i : Nat) : Prop :=
  pat.isPrefixOf (s.drop i) = true

instance (pat s : List Char) (i : Nat) : Decidable (occursAt pat s i) := by
  unfold occursAt; infer_instance

/-- Python `s.find(pat, start)`, as an `Option`: the least `i ≥ start` at
which `pat` occurs in `s` (`none` stands for Python's `-1`). -/
def pyFind (pat s : List Char) (start : Nat) : Option Nat :=
  scanFind (fun i => pat.isPrefixOf (s.drop i)) start (s.length + 1 - start)

/-- `i` is the first occurrence of `pat` in `s` at or after `start`. -/
def firstOccFrom (pat s : List Char) (start i : Nat) : Prop :=
  start ≤ i ∧ occursAt pat s i ∧ ∀ j, start ≤ j → j < i → ¬ occursAt pat s j

instance (pat s : List Char) (start i : Nat) :
    Decidable (firstOccFrom pat s start i) := by
  unfold firstOccFrom; infer_instance

/-! ### `CtlSync.replace_architecture_section` (ctl_sync/core.py) -/

def startMarker : List Char := "# AUTO-GENERATED ARCHITECTURE".data

def endMarker : List Char := "# AUTO-GENERATED COMPONENT STATUS".data

def nl2 : List Char := ['\n', '\n']

/-- `CtlSync.replace_architecture_section`: replace the AUTO-GENERATED
ARCHITECTURE section of the CLAUDE.md content by `newSection`. -/
def replace_architecture_section (content newSection : List Char) : List Char :=
  match pyFind startMarker content 0 with
  | none => content ++ nl2 ++ newSection
  | some s =>
    let e := (pyFind endMarker content s).getD content.length
    content.take s ++ newSection ++ nl2 ++ content.drop e

/-! ### JSON values and a model of Python `json.loads`

Python `int` results are modelled exactly; `float` results are kept as their
source lexeme (no claim in this development compares float values).  Object
literals follow Python `dict` semantics: duplicate keys keep the first
position and the last value, and insertion preserves order. -/

inductive Json where
  | null : Json
  | bool (b : Bool) : Json
  | int (n : Int) : Json
  | float (raw : List Char) : Json
  | str (s : List Char) : Json
  | arr (elems : List Json) : Json
  | obj (fields : List (List Char × Json)) : Json

instance : Inhabited Json := ⟨Json.null⟩

/-- A Python dict with string keys and JSON values. -/
abbrev JObj := List (List Char × Json)

/-- Python `d.get(k)` / `d[k]` on a dict: the value at the first matching
key. -/
def dictGet {κ α : Type} [BEq κ] : List (κ × α) → κ → Option α
  | [], _ => none
  | p :: ps, k => if p.1 == k then some p.2 else dictGet ps k

/-- Python `d[k] = v` on a dict: update the first matching key in place if
it exists, otherwise append. -/
def dictSet {κ α : Type} [BEq κ] : List (κ × α) → κ → α → List (κ × α)
  | [], k, v => [(k, v)]
  | p :: ps, k, v => if p.1 == k then (k, v) :: ps else p :: dictSet ps k v

/-- Whitespace accepted by the `json` module between tokens. -/
def jsonWs (c : Char) : Bool := c = ' ' || c = '\t' || c = '\n' || c = '\r'

def skipWs (s : List Char) : List Char := s.dropWhile jsonWs

def hexVal (c : Char) : Option Nat :=
  if '0' ≤ c ∧ c ≤ '9' then some (c.toNat - 48)
  else if 'a' ≤ c ∧ c ≤ 'f' then some (c.toNat - 87)
  else if 'A' ≤ c ∧ c ≤ 'F' then some (c.toNat - 55)
  else none

/-- Decode the body of a JSON string into units: literal characters
(`Sum.inl`) and `\\uXXXX` code units (`Sum.inr`); returns the units and the
remaining input after the closing quote.  Strict mode: raw control
characters are rejected. -/
def parseJStringUnits : List Char → Option (List (Sum Char Nat) × List Char)
  | [] => none
  | '"' :: rest => some ([], rest)
  | '\\' :: 'u' :: h1 :: h2 :: h3 :: h4 :: rest => do
    let d1 ← hexVal h1
    let d2 ← hexVal h2
    let d3 ← hexVal h3
    let d4 ← hexVal h4
    let n := ((d1 * 16 + d2) * 16 + d3) * 16 + d4
    let (s, r) ← parseJStringUnits rest
    some (Sum.inr n :: s, r)
  | '\\' :: c :: rest => do
    let e ← match c with
      | '"' => some '"'
      | '\\' => some '\\'
      | '/' => some '/'
      | 'b' => some (Char.ofNat 8)
      | 'f' => some (Char.ofNat 12)
      | 'n' => some '\n'
      | 'r' => some '\r'
      | 't' => some '\t'
      | _ => none
    let (s, r) ← parseJStringUnits rest
    some (Sum.inl e :: s, r)
  | c :: rest =>
    if c.toNat < 0x20 then none
    else do
      let (s, r) ← parseJStringUnits rest
      some (Sum.inl c :: s, r)

/-- Combine consecutive `\uXXXX` surrogate-pair code units into single
characters, as the `json` scanner does. -/
def combineUnitsF : Nat → List (Sum Char Nat) → List Char
  | 0, _ => []
  | _, [] => []
  | fuel+1, Sum.inl c :: r => c :: combineUnitsF fuel r
  | fuel+1, Sum.inr n :: Sum.inr m :: r2 =>
    if (0xD800 ≤ n ∧ n ≤ 0xDBFF) ∧ (0xDC00 ≤ m ∧ m ≤ 0xDFFF) then
      Char.ofNat (0x10000 + (n - 0xD800) * 0x400 + (m - 0xDC00))
        :: combineUnitsF fuel r2
    else Char.ofNat n :: combineUnitsF fuel (Sum.inr m :: r2)
  | fuel+1, Sum.inr n :: r => Char.ofNat n :: combineUnitsF fuel r

def combineUnits (us : List (Sum Char Nat)) : List Char :=
  combineUnitsF us.length us

/-- Parse the body of a JSON string (the opening quote already consumed). -/
def parseJString (s : List Char) : Option (List Char × List Char) :=
  (parseJStringUnits s).map (fun p => (combineUnits p.1, p.2))

def spanDigits (s : List Char) : List Char × List Char :=
  s.span (fun c => c.isDigit)

def natOfDigits (ds : List Char) : Nat :=
  ds.foldl (fun a c => a * 10 + (c.toNat - 48)) 0

/-- Parse a JSON number whose optional sign has been recorded in `sign`;
`s1` starts at the first digit.  Pure integer literals become `Json.int`,
anything with a fraction or exponent becomes `Json.float` of its lexeme. -/
def parseNumberCore (sign : Bool) (s1 : List Char) : Option (Json × List Char) :=
  let (ip, s2) := spanDigits s1
  if ip = [] then none
  else if ip.length > 1 ∧ ip.head? = some '0' then none
  else
    let (fp, s3) : List Char × List Char :=
      match s2 with
      | '.' :: r =>
        match spanDigits r with
        | ([], _) => ([], s2)
        | (ds, r2) => ('.' :: ds, r2)
      | _ => ([], s2)
    let (ep, s4) : List Char × List Char :=
      match s3 with
      | e :: r =>
        if e = 'e' ∨ e = 'E' then
          match r with
          | sgn :: r1 =>
            if sgn = '+' ∨ sgn = '-' then
              match spanDigits r1 with
              | ([], _) => ([], s3)
              | (ds, r2) => (e :: sgn :: ds, r2)
            else
              match spanDigits r with
              | ([], _) => ([], s3)
              | (ds, r2) => (e :: ds, r2)
          | [] => ([], s3)
        else ([], s3)
      | [] => ([], s3)
    if fp = [] ∧ ep = [] then
      let v : Int := Int.ofNat (natOfDigits ip)
      some (Json.int (if sign then -v else v), s4)
    else
      some (Json.float ((if sign then ['-'] else []) ++ ip ++ fp ++ ep), s4)

/-- The state of the `json` scanner: parsing a value, the members of an
object, or the elements of an array. -/
inductive JTask where
  | val (s : List Char) : JTask
  | members (acc : JObj) (s : List Char) : JTask
  | elems (acc : List Json) (s : List Char) : JTask

/-- Model of the `json` module scanner, fuelled for structural
termination: parse one value / the members of an object / the elements of
an array. -/
def parseJRun : Nat → JTask → Option (Json × List Char)
  | 0, _ => none
  | fuel+1, JTask.val s =>
    (match s with
     | [] => none
     | '{' :: rest =>
       (match skipWs rest with
        | '}' :: r => some (Json.obj [], r)
        | s1 => parseJRun fuel (JTask.members [] s1))
     | '[' :: rest =>
       (match skipWs rest with
        | ']' :: r => some (Json.arr [], r)
        | s1 => parseJRun fuel (JTask.elems [] s1))
     | '"' :: rest => (parseJString rest).map (fun p => (Json.str p.1, p.2))
     | 't' :: 'r' :: 'u' :: 'e' :: rest => some (Json.bool true, rest)
     | 'f' :: 'a' :: 'l' :: 's' :: 'e' :: rest => some (Json.bool false, rest)
     | 'n' :: 'u' :: 'l' :: 'l' :: rest => some (Json.null, rest)
     | 'N' :: 'a' :: 'N' :: rest => some (Json.float "NaN".data, rest)
     | 'I' :: 'n' :: 'f' :: 'i' :: 'n' :: 'i' :: 't' :: 'y' :: rest =>
       some (Json.float "Infinity".data, rest)
     | '-' :: 'I' :: 'n' :: 'f' :: 'i' :: 'n' :: 'i' :: 't' :: 'y' :: rest =>
       some (Json.float "-Infinity".data, rest)
     | '-' :: rest => parseNumberCore true rest
     | s => parseNumberCore false s)
  | fuel+1, JTask.members acc s =>
    (match s with
     | '"' :: rest => do
       let (k, r1) ← parseJString rest
       match skipWs r1 with
       | ':' :: r3 => do
         let (v, r4) ← parseJRun fuel (JTask.val (skipWs r3))
         let acc2 := dictSet acc k v
         match skipWs r4 with
         | ',' :: r6 => parseJRun fuel (JTask.members acc2 (skipWs r6))
         | '}' :: r6 => some (Json.obj acc2, r6)
         | _ => none
       | _ => none
     | _ => none)
  | fuel+1, JTask.elems acc s => do
    let (v, r1) ← parseJRun fuel (JTask.val s)
    let acc2 := acc ++ [v]
    match skipWs r1 with
    | ',' :: r3 => parseJRun fuel (JTask.elems acc2 (skipWs r3))
    | ']' :: r3 => some (Json.arr acc2, r3)
    | _ => none

/-- Parse one JSON value. -/
def parseVal (fuel : Nat) (s : List Char) : Option (Json × List Char) :=
  parseJRun fuel (JTask.val s)

/-- Model of Python `json.loads`: parse a complete document. -/
def jsonParse (s : List Char) : Option Json :=
  match parseVal (2 * s.length + 2) (skipWs s) with
  | some (v, rest) => if skipWs rest = [] then some v else none
  | none => none

/-! ### Python string helpers: `\s`, `str.splitlines`, `str.replace` -/

/-- The characters matched by the regex class `\s` (ASCII range; the rare
non-ASCII Unicode whitespace characters are not modelled). -/
def pyWs (c : Char) : Bool :=
  c = ' ' || c = '\t' || c = '\n' || c = '\r' ||
  c = Char.ofNat 0x0b || c = Char.ofNat 0x0c

/-- Line boundaries recognised by Python `str.splitlines`. -/
def isLineBreak (c : Char) : Bool :=
  c = '\n' || c = '\r' || c = Char.ofNat 0x0b || c = Char.ofNat 0x0c ||
  c = Char.ofNat 0x1c || c = Char.ofNat 0x1d || c = Char.ofNat 0x1e ||
  c = Char.ofNat 0x85 || c = Char.ofNat 0x2028 || c = Char.ofNat 0x2029

/-- The `str.splitlines()` loop: `cur` is the reversed current line. -/
def splitLinesGo (cur : List Char) : List Char → List (List Char)
  | [] => [cur.reverse]
  | '\r' :: '\n' :: r =>
    cur.reverse :: (if r = [] then [] else splitLinesGo [] r)
  | c :: r =>
    if isLineBreak c then
      cur.reverse :: (if r = [] then [] else splitLinesGo [] r)
    else splitLinesGo (c :: cur) r

/-- Python `str.splitlines()`: split at line boundaries, `\r\n` counting as
one boundary, with no trailing empty line for a trailing terminator. -/
def splitLines (s : List Char) : List (List Char) :=
  if s = [] then [] else splitLinesGo [] s

/-- Case-insensitive literal match (the literal is given in lowercase):
if `s` starts with `lit` up to ASCII case, return the rest of `s`. -/
def matchLiteralCI : List Char → List Char → Option (List Char)
  | [], s => some s
  | c :: cs, d :: ds => if d.toLower = c then matchLiteralCI cs ds else none
  | _ :: _, [] => none

/-- Index of the last character of `s` satisfying `p`. -/
def lastIdx (p : Char → Bool) (s : List Char) : Option Nat :=
  match s.reverse.findIdx? p with
  | some k => some (s.length - 1 - k)
  | none => none

/-! ### `Ctl2Parser` (ctl_sync/parsers/ctl2_parser.py) and
`BaseParser.extract_from_file` (base_parser.py)

The CTL v2.0 component pattern is `//\s*@component:\s*(\{.*\})` with
`re.IGNORECASE`.  `re.search` finds the least starting position at which the
whole pattern matches; the greedy `.*` makes the capture group run from the
brace after `@component:` to the last `}` of the line. -/

/-- Attempt the CTL v2.0 pattern at the start of the suffix `s`,
returning the capture group. -/
def ctl2MatchSuffix (s : List Char) : Option (List Char) :=
  match s with
  | '/' :: '/' :: r1 =>
    let r2 := r1.dropWhile pyWs
    match matchLiteralCI "@component:".data r2 with
    | none => none
    | some r3 =>
      let r4 := r3.dropWhile pyWs
      match r4 with
      | '{' :: r5 =>
        let r6 := r5.takeWhile (fun c => c ≠ '\n')
        match lastIdx (fun c => c = '}') r6 with
        | none => none
        | some k => some ('{' :: r6.take (k + 1))
      | _ => none
  | _ => none

/-- `re.search` of the CTL v2.0 pattern on a line: capture of the leftmost
match. -/
def ctl2Capture (line : List Char) : Option (List Char) :=
  (scanFind (fun i => (ctl2MatchSuffix (line.drop i)).isSome) 0
      (line.length + 1)).bind
    (fun i => ctl2MatchSuffix (line.drop i))

/-- `BaseParser.normalize_file_path`: replace backslashes by slashes. -/
def normalize_file_path (filePath : List Char) : List Char :=
  filePath.map (fun c => if c = '\\' then '/' else c)

def xFileKey : List Char := "x_file".data

/-- The `f"{path}:{line_no}"` location string of
`BaseParser.add_file_location`. -/
def fileLocation (filePath : List Char) (lineNo : Nat) : List Char :=
  normalize_file_path filePath ++ ':' :: Nat.toDigits 10 lineNo

/-- `Ctl2Parser.parse_line`: regex search, JSON parse, reject non-objects,
record the file location. -/
def ctl2_parse_line (line : List Char) (lineNo : Nat) (filePath : List Char) :
    Option JObj :=
  match ctl2Capture line with
  | none => none
  | some jsonStr =>
    match jsonParse jsonStr with
    | some (Json.obj kvs) =>
      some (dictSet kvs xFileKey (Json.str (fileLocation filePath lineNo)))
    | _ => none

/-- The body of the `extract_from_file` loop: append the parsed component,
if any. -/
def extractStep (parseLine : List Char → Nat → List Char → Option JObj)
    (filePath : List Char) (comps : List JObj) (nl : Nat × List Char) :
    List JObj :=
  match parseLine nl.2 nl.1 filePath with
  | some c => comps ++ [c]
  | none => comps

/-- `BaseParser.extract_from_file`: run a line parser over the enumerated
lines of the file (numbered from 1), collecting the parsed components in
order. -/
def extract_from_file (parseLine : List Char → Nat → List Char → Option JObj)
    (content filePath : List Char) : List JObj :=
  (List.enumFrom 1 (splitLines content)).foldl
    (extractStep parseLine filePath) []

/-- `Ctl2Parser().extract_from_file`. -/
def ctl2_extract_from_file (content filePath : List Char) : List JObj :=
  extract_from_file ctl2_parse_line content filePath

/-! ### `CtlSchema.infer_kind_from_type` (ctl_sync/schema.py) -/

/-- Python `sub in s` substring containment. -/
def containsSub (pat s : List Char) : Bool := (pyFind pat s 0).isSome

/-- Python `str.strip()` over the modelled whitespace set. -/
def pyStrip (s : List Char) : List Char :=
  ((s.dropWhile pyWs).reverse.dropWhile pyWs).reverse

/-- `CtlSchema.infer_kind_from_type`: infer the component kind letter from
the lowercased type string, first matching keyword winning. -/
def infer_kind_from_type (typeStr : List Char) : Char :=
  let tl := typeStr.map Char.toLower
  if containsSub "test".data tl then 'T'
  else if containsSub "agent".data tl then 'A'
  else if containsSub "batch".data tl then 'B'
  else if containsSub "function".data tl then 'F'
  else if containsSub "module".data tl then 'M'
  else if containsSub "service".data tl then 'S'
  else if containsSub "resource".data tl then 'R'
  else if containsSub "process".data tl then 'P'
  else if containsSub "data".data tl then 'D'
  else if containsSub "error".data tl then 'E'
  else 'C'

/-! ### `Ctl3Parser` (ctl_sync/parsers/ctl3_parser.py)

The annotation pattern is `//\s*@ctl3:\s*([ⱧD]\[.*?\]\s*:=\s*\{[^}]*\})`
with `re.IGNORECASE`; the tensor pattern applied to the captured group is
`[ⱧD]\[([^:]+):([^\]]+)\]\s*:=\s*\{([^}]*)\}` (case-sensitive).  The lazy
`.*?\]` means candidate `]` positions are tried left to right until the rest
of the pattern matches. -/

/-- Match `\s*:=\s*\{[^}]*\}` at the start of `s`; return the matched text
and the rest. -/
def matchOpsTail (s : List Char) : Option (List Char × List Char) :=
  let w1 := s.takeWhile pyWs
  match s.dropWhile pyWs with
  | ':' :: '=' :: s2 =>
    let w2 := s2.takeWhile pyWs
    (match s2.dropWhile pyWs with
     | '{' :: s4 =>
       let body := s4.takeWhile (fun c => c ≠ '}')
       (match s4.dropWhile (fun c => c ≠ '}') with
        | '}' :: s6 =>
          some (w1 ++ ':' :: '=' :: w2 ++ '{' :: body ++ ['}'], s6)
        | _ => none)
     | _ => none)
  | _ => none

/-- The tensor symbols matched by `[ⱧD]` under `re.IGNORECASE`. -/
def isTensorSymCI (c : Char) : Bool :=
  c = 'Ⱨ' || c = 'ⱨ' || c = 'D' || c = 'd'

/-- Candidate close bracket for the lazy `.*?\]`: `r.drop j` starts with
`]`, no newline precedes it, and the rest of the pattern matches after. -/
def ctl3TryClose (r : List Char) (nlIdx j : Nat) : Bool :=
  match r.drop j with
  | ']' :: rest => decide (j < nlIdx) && (matchOpsTail rest).isSome
  | _ => false

/-- Match the capture group `[ⱧD]\[.*?\]\s*:=\s*\{[^}]*\}` at the start of
`s`. -/
def ctl3GroupAt (s : List Char) : Option (List Char) :=
  match s with
  | c :: '[' :: r =>
    if isTensorSymCI c then
      let nlIdx := (r.takeWhile (fun ch => ch ≠ '\n')).length
      (scanFind (ctl3TryClose r nlIdx) 0 (r.length + 1)).bind
        (fun j =>
          (matchOpsTail (r.drop (j + 1))).map
            (fun p => c :: '[' :: (r.take j ++ ']' :: p.1)))
    else none
  | _ => none

/-- Attempt the CTL v3.0 annotation pattern at the start of the suffix `s`,
returning the capture group. -/
def ctl3MatchSuffix (s : List Char) : Option (List Char) :=
  match s with
  | '/' :: '/' :: r1 =>
    let r2 := r1.dropWhile pyWs
    (match matchLiteralCI "@ctl3:".data r2 with
     | none => none
     | some r3 => ctl3GroupAt (r3.dropWhile pyWs))
  | _ => none

/-- `re.search` of the CTL v3.0 annotation pattern on a line. -/
def ctl3Capture (line : List Char) : Option (List Char) :=
  (scanFind (fun i => (ctl3MatchSuffix (line.drop i)).isSome) 0
      (line.length + 1)).bind
    (fun i => ctl3MatchSuffix (line.drop i))

/-- Attempt the tensor pattern
`[ⱧD]\[([^:]+):([^\]]+)\]\s*:=\s*\{([^}]*)\}` at the start of `s`;
return the three capture groups (id, type, operations). -/
def tensorMatchSuffix (s : List Char) :
    Option (List Char × List Char × List Char) :=
  match s with
  | c :: '[' :: r =>
    if c = 'Ⱨ' || c = 'D' then
      let g1 := r.takeWhile (fun ch => ch ≠ ':')
      if g1 = [] then none
      else
        match r.dropWhile (fun ch => ch ≠ ':') with
        | ':' :: r2 =>
          let g2 := r2.takeWhile (fun ch => ch ≠ ']')
          if g2 = [] then none
          else
            match r2.dropWhile (fun ch => ch ≠ ']') with
            | ']' :: r4 =>
              (match r4.dropWhile pyWs with
               | ':' :: '=' :: r6 =>
                 (match r6.dropWhile pyWs with
                  | '{' :: r8 =>
                    let g3 := r8.takeWhile (fun ch => ch ≠ '}')
                    (match r8.dropWhile (fun ch => ch ≠ '}') with
                     | '}' :: _ => some (g1, g2, g3)
                     | _ => none)
                  | _ => none)
               | _ => none)
            | _ => none
        | _ => none
    else none
  | _ => none

/-- `re.search` of the tensor pattern. -/
def tensorSearch (s : List Char) :
    Option (List Char × List Char × List Char) :=
  (scanFind (fun i => (tensorMatchSuffix (s.drop i)).isSome) 0
      (s.length + 1)).bind
    (fun i => tensorMatchSuffix (s.drop i))

/-- Match the maturity pattern `(?:∇|grad)\[(\d+)(?:→|->)(\d+)\]` at the
start of `s`; return the two bounds. -/
def maturityMatchSuffix (s : List Char) : Option (Nat × Nat) :=
  ((match s with
    | '∇' :: r => some r
    | 'g' :: 'r' :: 'a' :: 'd' :: r => some r
    | _ => none : Option (List Char))).bind
    (fun r =>
      match r with
      | '[' :: r0 =>
        let d1 := r0.takeWhile (fun c => c.isDigit)
        if d1 = [] then none
        else
          ((match r0.dropWhile (fun c => c.isDigit) with
            | '→' :: r2 => some r2
            | '-' :: '>' :: r2 => some r2
            | _ => none : Option (List Char))).bind
            (fun r2 =>
              let d2 := r2.takeWhile (fun c => c.isDigit)
              if d2 = [] then none
              else
                match r2.dropWhile (fun c => c.isDigit) with
                | ']' :: _ => some (natOfDigits d1, natOfDigits d2)
                | _ => none)
      | _ => none)

/-- `re.search` of the maturity pattern (first match). -/
def maturitySearch (s : List Char) : Option (Nat × Nat) :=
  (scanFind (fun i => (maturityMatchSuffix (s.drop i)).isSome) 0
      (s.length + 1)).bind
    (fun i => maturityMatchSuffix (s.drop i))

/-- Match the dependency pattern `(?:⊗|compose)\[([^\]]+)\]` at the start of
`s`; return the capture group. -/
def depMatchSuffix (s : List Char) : Option (List Char) :=
  ((match s with
    | '⊗' :: r => some r
    | 'c' :: 'o' :: 'm' :: 'p' :: 'o' :: 's' :: 'e' :: r => some r
    | _ => none : Option (List Char))).bind
    (fun r =>
      match r with
      | '[' :: r0 =>
        let g := r0.takeWhile (fun ch => ch ≠ ']')
        if g = [] then none
        else
          match r0.dropWhile (fun ch => ch ≠ ']') with
          | ']' :: _ => some g
          | _ => none
      | _ => none)

/-- `re.search` of the dependency pattern (first match). -/
def depSearch (s : List Char) : Option (List Char) :=
  (scanFind (fun i => (depMatchSuffix (s.drop i)).isSome) 0
      (s.length + 1)).bind
    (fun i => depMatchSuffix (s.drop i))

/-- The `tensor_operators` table of `Ctl3Parser`, in source order. -/
def tensorOperators : List (List Char × List Char) :=
  [("⊗".data, "tensor_composition".data),
   ("compose".data, "tensor_composition".data),
   ("⊕".data, "tensor_addition".data),
   ("parallel".data, "tensor_addition".data),
   ("⊙".data, "elementwise_product".data),
   ("⊡".data, "convolution".data),
   ("∇".data, "optimization".data),
   ("grad".data, "optimization".data),
   ("∂".data, "partial_implementation".data),
   ("partial".data, "partial_implementation".data),
   ("∴".data, "conclusion".data),
   ("∵".data, "causality".data),
   ("≡".data, "equivalence".data),
   ("⟹".data, "implication".data),
   ("implies".data, "implication".data),
   ("⟷".data, "bidirectional".data)]

/-- `Ctl3Parser._extract_flags`: operator and keyword feature flags. -/
def extractFlags (operations : List Char) : List (List Char) :=
  let acc := tensorOperators.foldl
    (fun acc p => if containsSub p.1 operations then acc ++ [p.2] else acc) []
  let opsL := operations.map Char.toLower
  let acc := if containsSub "gpu".data opsL then acc ++ ["gpu".data] else acc
  let acc := if containsSub "ai".data opsL || containsSub "ml".data opsL ||
                containsSub "neural".data opsL then acc ++ ["ai".data] else acc
  let acc := if containsSub "async".data opsL then acc ++ ["async".data]
             else acc
  let acc := if containsSub "real_time".data opsL then
               acc ++ ["real_time".data] else acc
  let acc := if containsSub "batch".data opsL then acc ++ ["batch".data]
             else acc
  let acc := if containsSub "stream".data opsL then
               acc ++ ["streaming".data] else acc
  acc

/-- `Ctl3Parser.parse_tensor`: parse a CTL v3.0 tensor string into a
component dict. -/
def ctl3_parse_tensor (tensorStr : List Char) : Option JObj :=
  match tensorSearch tensorStr with
  | none => none
  | some (g1, g2, g3) =>
    let idStr := pyStrip g1
    let typeStr := pyStrip g2
    let operations := pyStrip g3
    let comp : JObj :=
      [("k".data, Json.str [infer_kind_from_type typeStr]),
       ("id".data, Json.str idStr),
       ("t".data, Json.str (typeStr ++ " (CTL v3.0)".data)),
       ("ctl3_tensor".data, Json.str tensorStr)]
    let comp := match maturitySearch operations with
      | some ct =>
        dictSet comp "m".data (Json.obj
          [("cur".data, Json.int (Int.ofNat ct.1)),
           ("tgt".data, Json.int (Int.ofNat ct.2)),
           ("u".data, Json.str "%".data)])
      | none => comp
    let comp := match depSearch operations with
      | some depsStr =>
        dictSet comp "d".data (Json.arr
          ((depsStr.splitOn ',').map (fun d => Json.str (pyStrip d))))
      | none => comp
    let flags := extractFlags operations
    let comp := if flags.isEmpty then comp
      else dictSet comp "f".data (Json.arr (flags.map Json.str))
    some comp

/-- `Ctl3Parser.parse_line`: annotation search, tensor parse, record the
file location. -/
def ctl3_parse_line (line : List Char) (lineNo : Nat) (filePath : List Char) :
    Option JObj :=
  match ctl3Capture line with
  | none => none
  | some tensorStr =>
    match ctl3_parse_tensor tensorStr with
    | none => none
    | some comp =>
      some (dictSet comp xFileKey (Json.str (fileLocation filePath lineNo)))

/-- `Ctl3Parser().extract_from_file`. -/
def ctl3_extract_from_file (content filePath : List Char) : List JObj :=
  extract_from_file ctl3_parse_line content filePath

/-! ### `CtlSchema.validate_ctl2` (ctl_sync/schema.py)

The validator first runs the pydantic `CtlComponent` model (field patterns
and bounds as declared with `Field(..., pattern=..., ...)`), then, when that
passes, the `jsonschema` Draft-7 validator on `_build_ctl2_schema`.  Error
messages are modelled as short tags; numeric-string coercion and the rare
pydantic lax coercions are not modelled (none of the claims depend on
them); float bounds are checked on the exact rational value of the float
lexeme. -/

def isKindChar (c : Char) : Bool :=
  c = 'T' || c = 'A' || c = 'B' || c = 'F' || c = 'M' || c = 'S' ||
  c = 'R' || c = 'P' || c = 'D' || c = 'C'

/-- The pydantic pattern `^[TABFMSRPDC]$` for field `k`. -/
def matchesKPattern (s : List Char) : Bool :=
  match s with
  | [c] => isKindChar c
  | _ => false

def isIdChar (c : Char) : Bool :=
  ('a' ≤ c && c ≤ 'z') || ('0' ≤ c && c ≤ '9') || c = '_'

/-- The pattern `^[a-z0-9_]{1,32}$` for field `id`. -/
def matchesIdPattern (s : List Char) : Bool :=
  decide (1 ≤ s.length) && decide (s.length ≤ 32) && s.all isIdChar

/-- First branch `^P(\d+D)?(T(\d+H)?(\d+M)?)?$` of the effort pattern. -/
def matchesEPattern1 (s : List Char) : Bool :=
  match s with
  | 'P' :: r =>
    let (ds, r1) := spanDigits r
    let afterD : Option (List Char) :=
      if ds = [] then some r
      else match r1 with
        | 'D' :: r2 => some r2
        | _ => none
    match afterD with
    | none => false
    | some r2 =>
      match r2 with
      | [] => true
      | 'T' :: r3 =>
        let (d1, r4) := spanDigits r3
        if d1 = [] then decide (r3 = [])
        else
          match r4 with
          | 'H' :: r5 =>
            let (d2, r6) := spanDigits r5
            if d2 = [] then decide (r5 = [])
            else match r6 with
              | 'M' :: r7 => decide (r7 = [])
              | _ => false
          | 'M' :: r5 => decide (r5 = [])
          | _ => false
      | _ => false
  | _ => false

/-- Second branch `^PT\d+[HMS]$` of the effort pattern. -/
def matchesEPattern2 (s : List Char) : Bool :=
  match s with
  | 'P' :: 'T' :: r =>
    let (ds, r1) := spanDigits r
    if ds = [] then false
    else match r1 with
      | [c] => c = 'H' || c = 'M' || c = 'S'
      | _ => false
  | _ => false

def matchesEPattern (s : List Char) : Bool :=
  matchesEPattern1 s || matchesEPattern2 s

/-- Exact rational value of a float lexeme (sign, digits, optional
fraction, optional exponent); `none` for `NaN` and the infinities. -/
def ratOfLexeme (s : List Char) : Option ℚ :=
  let (sign, s1) : Bool × List Char :=
    match s with
    | '-' :: r => (true, r)
    | _ => (false, s)
  let (ip, s2) := spanDigits s1
  if ip = [] then none
  else
    let (fp, s3) : List Char × List Char :=
      match s2 with
      | '.' :: r => spanDigits r
      | _ => ([], s2)
    let base : ℚ := (natOfDigits ip : ℚ) + (natOfDigits fp : ℚ) / (10 : ℚ) ^ fp.length
    match s3 with
    | [] => some (if sign then -base else base)
    | e :: r =>
      if e = 'e' ∨ e = 'E' then
        let (es, r1) : Bool × List Char :=
          match r with
          | '+' :: r2 => (false, r2)
          | '-' :: r2 => (true, r2)
          | _ => (false, r)
        let (ds, r3) := spanDigits r1
        if ds = [] ∨ r3 ≠ [] then none
        else
          let v : ℚ := if es then base / (10 : ℚ) ^ natOfDigits ds
                       else base * (10 : ℚ) ^ natOfDigits ds
          some (if sign then -v else v)
      else none

/-- A JSON number within the closed rational interval `[lo, hi]`. -/
def numInRange (j : Json) (lo hi : ℚ) : Bool :=
  match j with
  | Json.int n => decide (lo ≤ (n : ℚ)) && decide ((n : ℚ) ≤ hi)
  | Json.float raw =>
    (match ratOfLexeme raw with
     | some q => decide (lo ≤ q) && decide (q ≤ hi)
     | none => false)
  | _ => false

/-- pydantic errors for the `k` field. -/
def errK (c : JObj) : List (List Char) :=
  match dictGet c "k".data with
  | some (Json.str s) => if matchesKPattern s then [] else ["k pattern".data]
  | some _ => ["k type".data]
  | none => ["k missing".data]

def errId (c : JObj) : List (List Char) :=
  match dictGet c "id".data with
  | some (Json.str s) => if matchesIdPattern s then [] else ["id pattern".data]
  | some _ => ["id type".data]
  | none => ["id missing".data]

def errT (c : JObj) : List (List Char) :=
  match dictGet c "t".data with
  | some (Json.str s) => if s.length ≤ 40 then [] else ["t length".data]
  | some _ => ["t type".data]
  | none => ["t missing".data]

def errP (c : JObj) : List (List Char) :=
  match dictGet c "p".data with
  | none => []
  | some (Json.int n) => if 1 ≤ n ∧ n ≤ 5 then [] else ["p range".data]
  | some _ => ["p type".data]

def errE (c : JObj) : List (List Char) :=
  match dictGet c "e".data with
  | none => []
  | some (Json.str s) => if matchesEPattern s then [] else ["e pattern".data]
  | some _ => ["e type".data]

def allStr (l : List Json) : Bool :=
  l.all (fun j => match j with | Json.str _ => true | _ => false)

def errD (c : JObj) : List (List Char) :=
  match dictGet c "d".data with
  | none => []
  | some (Json.arr l) =>
    (if allStr l then [] else ["d items".data]) ++
    (if l.length ≤ 10 then [] else ["d length".data])
  | some _ => ["d type".data]

def errR (c : JObj) : List (List Char) :=
  match dictGet c "r".data with
  | none => []
  | some (Json.str s) => if s.length ≤ 20 then [] else ["r length".data]
  | some _ => ["r type".data]

/-- pydantic errors of the nested `CtlMaturity` model. -/
def errMaturity (o : JObj) : List (List Char) :=
  (match dictGet o "cur".data with
   | none => ["m cur missing".data]
   | some j => if numInRange j 0 100 then [] else ["m cur range".data]) ++
  (match dictGet o "tgt".data with
   | none => ["m tgt missing".data]
   | some j => if numInRange j 0 100 then [] else ["m tgt range".data]) ++
  (match dictGet o "u".data with
   | none => []
   | some (Json.str s) => if s.length ≤ 10 then [] else ["m u length".data]
   | some _ => ["m u type".data])

def errM (c : JObj) : List (List Char) :=
  match dictGet c "m".data with
  | none => []
  | some (Json.obj o) => errMaturity o
  | some _ => ["m type".data]

def errF (c : JObj) : List (List Char) :=
  match dictGet c "f".data with
  | none => []
  | some (Json.arr l) =>
    (if allStr l then [] else ["f items".data]) ++
    (if l.length ≤ 10 then [] else ["f length".data])
  | some _ => ["f type".data]

def errXFile (c : JObj) : List (List Char) :=
  match dictGet c "x_file".data with
  | none => []
  | some (Json.str _) => []
  | some _ => ["x_file type".data]

def errTensorField (c : JObj) : List (List Char) :=
  match dictGet c "ctl3_tensor".data with
  | none => []
  | some (Json.str _) => []
  | some _ => ["ctl3_tensor type".data]

/-- The pydantic `CtlComponent(**component)` validation. -/
def pydanticErrors (c : JObj) : List (List Char) :=
  errK c ++ errId c ++ errT c ++ errP c ++ errE c ++ errD c ++ errR c ++
  errM c ++ errF c ++ errXFile c ++ errTensorField c

/-- The `enum` for `k` in `_build_ctl2_schema`, which also lists `E`. -/
def schemaEnumK : List (List Char) :=
  ["T".data, "A".data, "B".data, "F".data, "M".data, "S".data, "R".data,
   "P".data, "D".data, "C".data, "E".data]

def schemaPropKeys : List (List Char) :=
  ["k".data, "id".data, "t".data, "p".data, "e".data, "d".data, "r".data,
   "m".data, "f".data]

def isJsonNumber (j : Json) : Bool :=
  match j with
  | Json.int _ => true
  | Json.float _ => true
  | _ => false

/-- The `jsonschema` Draft-7 validation of `_build_ctl2_schema`. -/
def schemaErrors (c : JObj) : List (List Char) :=
  (match dictGet c "k".data with
   | none => ["schema k required".data]
   | some (Json.str s) =>
     if schemaEnumK.contains s then [] else ["schema k enum".data]
   | some _ => ["schema k type".data]) ++
  (match dictGet c "id".data with
   | none => ["schema id required".data]
   | some (Json.str s) =>
     if matchesIdPattern s then [] else ["schema id pattern".data]
   | some _ => ["schema id type".data]) ++
  (match dictGet c "t".data with
   | none => ["schema t required".data]
   | some (Json.str s) => if s.length ≤ 40 then [] else ["schema t length".data]
   | some _ => ["schema t type".data]) ++
  (match dictGet c "p".data with
   | none => []
   | some (Json.int n) => if 1 ≤ n ∧ n ≤ 5 then [] else ["schema p range".data]
   | some _ => ["schema p type".data]) ++
  (match dictGet c "e".data with
   | none => []
   | some (Json.str s) =>
     if matchesEPattern s then [] else ["schema e pattern".data]
   | some _ => ["schema e type".data]) ++
  (match dictGet c "d".data with
   | none => []
   | some (Json.arr l) =>
     (if allStr l then [] else ["schema d items".data]) ++
     (if l.length ≤ 10 then [] else ["schema d maxItems".data])
   | some _ => ["schema d type".data]) ++
  (match dictGet c "r".data with
   | none => []
   | some (Json.str s) => if s.length ≤ 20 then [] else ["schema r length".data]
   | some _ => ["schema r type".data]) ++
  (match dictGet c "m".data with
   | none => []
   | some (Json.obj o) =>
     (match dictGet o "cur".data with
      | none => ["schema m cur required".data]
      | some j => if isJsonNumber j then [] else ["schema m cur type".data]) ++
     (match dictGet o "tgt".data with
      | none => ["schema m tgt required".data]
      | some j => if isJsonNumber j then [] else ["schema m tgt type".data]) ++
     (match dictGet o "u".data with
      | none => ["schema m u required".data]
      | some (Json.str s) =>
        if s.length ≤ 10 then [] else ["schema m u length".data]
      | some _ => ["schema m u type".data])
   | some _ => ["schema m type".data]) ++
  (match dictGet c "f".data with
   | none => []
   | some (Json.arr l) =>
     (if allStr l then [] else ["schema f items".data]) ++
     (if l.length ≤ 10 then [] else ["schema f maxItems".data])
   | some _ => ["schema f type".data]) ++
  (c.foldl (fun acc p =>
    if schemaPropKeys.contains p.1 then acc
    else match p.2 with
      | Json.null => acc ++ ["schema additionalProperties".data]
      | _ => acc) [])

/-- `CtlSchema.validate_ctl2`: pydantic first, then the JSON-schema
validator. -/
def validate_ctl2 (c : JObj) : Bool × List (List Char) :=
  let pe := pydanticErrors c
  if pe.isEmpty then
    let se := schemaErrors c
    (se.isEmpty, se)
  else (false, pe)

/-! ### `CtlSync.extract_components` (ctl_sync/core.py) -/

/-- `CtlSync.extract_components`: run both parsers and keep the components
that pass schema validation. -/
def extract_components (content filePath : List Char) : List JObj :=
  (ctl2_extract_from_file content filePath ++
   ctl3_extract_from_file content filePath).filter
    (fun c => (validate_ctl2 c).1)

/-! ### The component sort of `CtlSync.scan_crates` (ctl_sync/core.py)

`all_components.sort(key=lambda c: (c.get('k', ''), c.get('id', '')))` is a
stable sort on the pair of strings; Python string and tuple comparison are
modelled below.  (Validated components always carry string `k` and `id`; a
non-string value would make the Python tuple comparison raise.) -/

/-- Python `str` comparison `<` by code points. -/
def strLt : List Char → List Char → Bool
  | [], [] => false
  | [], _ :: _ => true
  | _ :: _, [] => false
  | a :: as, b :: bs =>
    if a.toNat < b.toNat then true
    else if a.toNat = b.toNat then strLt as bs
    else false

/-- Python `str` comparison `<=` by code points. -/
def strLe : List Char → List Char → Bool
  | [], _ => true
  | _ :: _, [] => false
  | a :: as, b :: bs =>
    if a.toNat < b.toNat then true
    else if a.toNat = b.toNat then strLe as bs
    else false

/-- The sort key `(c.get('k', ''), c.get('id', ''))`. -/
def sortKey (c : JObj) : List Char × List Char :=
  ((match dictGet c "k".data with
    | some (Json.str s) => s
    | _ => []),
   (match dictGet c "id".data with
    | some (Json.str s) => s
    | _ => []))

/-- Python tuple comparison on the sort keys. -/
def keyLe (c d : JObj) : Bool :=
  let p := sortKey c
  let q := sortKey d
  strLt p.1 q.1 || (p.1 == q.1 && strLe p.2 q.2)

/-- Insert before the first element that is not strictly smaller: the
stable insertion yielding the same list as Python's stable `list.sort`. -/
def insertLe (le : JObj → JObj → Bool) (a : JObj) : List JObj → List JObj
  | [] => [a]
  | b :: bs => if le a b then a :: b :: bs else b :: insertLe le a bs

/-- Stable insertion sort: the result of Python `list.sort`. -/
def pySort (le : JObj → JObj → Bool) : List JObj → List JObj
  | [] => []
  | a :: as => insertLe le a (pySort le as)

/-! ### `FileCache` and `CtlSync.scan_crates` / `sync_once`
(ctl_sync/core.py)

The SHA-256 function itself is kept abstract: every statement below is
proved for an arbitrary `hashFn : List Char → List Char`, which only ever
enters the code through equality comparisons.  A file is modelled by its
path segments below the crates directory and its content (`none` when the
file is unreadable, in which case `get_hash` returns the empty string and
extraction is skipped).  I/O failures on writing are not modelled. -/

/-- The persisted/in-memory hash map of `FileCache`. -/
abbrev Cache := List (List Char × List Char)

structure ScanFile where
  parts : List (List Char)
  content : Option (List Char)

/-- `FileCache.get_hash`: hash of the file bytes, `""` if unreadable. -/
def get_hash (hashFn : List Char → List Char)
    (content : Option (List Char)) : List Char :=
  match content with
  | some c => hashFn c
  | none => []

/-- `FileCache.is_changed`: compare with the stored hash (absent entries
read as `""`), record the new hash when it differs. -/
def is_changed (hashFn : List Char → List Char) (hashes : Cache)
    (content : Option (List Char)) (relativePath : List Char) :
    Bool × Cache :=
  let currentHash := get_hash hashFn content
  let previousHash := (dictGet hashes relativePath).getD []
  if currentHash ≠ previousHash then
    (true, dictSet hashes relativePath currentHash)
  else (false, hashes)

/-- `rust_file.relative_to(self.crates_path).as_posix()`. -/
def relPathOf (f : ScanFile) : List Char :=
  List.intercalate "/".data f.parts

/-- One iteration of the `scan_crates` loop over a Rust file: skip `target`
directories, update the change flag and the cache, extract components. -/
def scanStep (hashFn : List Char → List Char)
    (st : Bool × List JObj × Cache) (f : ScanFile) : Bool × List JObj × Cache :=
  if f.parts.contains "target".data then st
  else
    let rel := relPathOf f
    let (chg, hs2) := is_changed hashFn st.2.2 f.content rel
    let comps2 := match f.content with
      | some content => st.2.1 ++ extract_components content rel
      | none => st.2.1
    (st.1 || chg, comps2, hs2)

/-- `CtlSync.scan_crates` on the files enumerated by `rglob`, returning
`(has_changes, sorted components, updated cache)`. -/
def scan_crates (hashFn : List Char → List Char) (files : List ScanFile)
    (hashes0 : Cache) : Bool × List JObj × Cache :=
  let st := files.foldl (scanStep hashFn) (false, [], hashes0)
  (st.1, pySort keyLe st.2.1, st.2.2)

/-- A scanned file whose current hash differs from the cache entry. -/
def fileChanged (hashFn : List Char → List Char) (mem : Cache)
    (f : ScanFile) : Bool :=
  get_hash hashFn f.content != (dictGet mem (relPathOf f)).getD []

/-- The files `scan_crates` actually visits (everything outside `target`
directories). -/
def scannedFiles (files : List ScanFile) : List ScanFile :=
  files.filter (fun f => !(f.parts.contains "target".data))

/-! ### `json.dumps(..., ensure_ascii=False, separators=(',', ':'))` -/

def jsonEscapeChar (c : Char) : List Char :=
  if c = '"' then ['\\', '"']
  else if c = '\\' then ['\\', '\\']
  else if c = '\n' then ['\\', 'n']
  else if c = '\r' then ['\\', 'r']
  else if c = '\t' then ['\\', 't']
  else if c = Char.ofNat 8 then ['\\', 'b']
  else if c = Char.ofNat 12 then ['\\', 'f']
  else if c.toNat < 0x20 then
    '\\' :: 'u' :: (Nat.toDigits 16 c.toNat).reverse.take 4 |>.reverse
  else [c]

def dumpStr (s : List Char) : List Char :=
  '"' :: (s.map jsonEscapeChar).flatten ++ ['"']

mutual

def jsonDumps : Json → List Char
  | Json.null => "null".data
  | Json.bool true => "true".data
  | Json.bool false => "false".data
  | Json.int n =>
    if n < 0 then '-' :: Nat.toDigits 10 n.natAbs
    else Nat.toDigits 10 n.natAbs
  | Json.float raw => raw
  | Json.str s => dumpStr s
  | Json.arr l => '[' :: jsonDumpsList l ++ [']']
  | Json.obj o => '{' :: jsonDumpsObj o ++ ['}']

def jsonDumpsList : List Json → List Char
  | [] => []
  | [x] => jsonDumps x
  | x :: xs => jsonDumps x ++ ',' :: jsonDumpsList xs

def jsonDumpsObj : List (List Char × Json) → List Char
  | [] => []
  | [(k, v)] => dumpStr k ++ ':' :: jsonDumps v
  | (k, v) :: xs => dumpStr k ++ ':' :: jsonDumps v ++ ',' :: jsonDumpsObj xs

end

/-- `CtlSync.build_architecture_section`. -/
def build_architecture_section (components : List JObj)
    (timestamp : List Char) : List Char :=
  List.intercalate "\n".data
    (["# AUTO-GENERATED ARCHITECTURE".data, [],
      "*Last updated: ".data ++ timestamp ++ "*".data, [],
      "## Components (CTL v2.0/v3.0 Mixed Format)".data, [],
      "```json".data] ++
     components.map (fun c => jsonDumps (Json.obj c)) ++
     ["```".data])

/-- The on-disk state `sync_once` can touch: the CLAUDE.md document and the
persisted hash cache (its JSON serialization abstracted to the map). -/
structure SyncFs where
  claudeMd : Option (List Char)
  cacheFile : Option Cache

structure SyncOutcome where
  fs : SyncFs
  mem : Cache
  wroteClaude : Bool
  wroteCache : Bool

/-- `CtlSync.sync_once`: scan, and when changes were detected rewrite
CLAUDE.md (if it exists) and persist the cache. -/
def sync_once (hashFn : List Char → List Char) (cratesExists : Bool)
    (files : List ScanFile) (mem0 : Cache) (fs : SyncFs)
    (timestamp : List Char) : SyncOutcome :=
  let r := if cratesExists then scan_crates hashFn files mem0
           else (false, [], mem0)
  if r.1 then
    let fs2 : SyncFs × Bool :=
      match fs.claudeMd with
      | none => (⟨none, some r.2.2⟩, false)
      | some content =>
        (⟨some (replace_architecture_section content
            (build_architecture_section r.2.1 timestamp)), some r.2.2⟩, true)
    ⟨fs2.1, r.2.2, fs2.2, true⟩
  else ⟨fs, r.2.2, false, false⟩

/-- Concrete files for analysing the visit-order dependence of
`scan_crates`: two files with components sharing the sort key `(C, x)`. -/
def c9FileA : ScanFile :=
  ⟨["a.rs".data],
    some "// @component: \x7b\"k\":\"C\",\"id\":\"x\",\"t\":\"one\"\x7d".data⟩

def c9FileB : ScanFile :=
  ⟨["b.rs".data],
    some "// @component: \x7b\"k\":\"C\",\"id\":\"x\",\"t\":\"two\"\x7d".data⟩

/-- A concrete hash function and file for exercising `sync_once`. -/
def c4Hash : List Char → List Char := fun _ => "h".data

def c4File : ScanFile := ⟨["a.rs".data], some "x".data⟩

/-- Projection used to compare component lists without equality on `Json`. -/
def xFileOf (c : JObj) : List Char :=
  match dictGet c xFileKey with
  | some (Json.str s) => s
  | _ => []

/-! ### `CtlJsonConfig.get` / `CtlJsonConfig.set` (ctl_sync/json_config.py) -/

/-- The lookup loop of `CtlJsonConfig.get`: descend through nested dicts,
failing as soon as a key is missing or a non-dict value is reached with keys
remaining. -/
def cfgWalk : Json → List (List Char) → Option Json
  | v, [] => some v
  | Json.obj kvs, k :: ks =>
    (match dictGet kvs k with
     | some v2 => cfgWalk v2 ks
     | none => none)
  | _, _ :: _ => none

/-- `CtlJsonConfig.get`: dot-separated path lookup with a default. -/
def CtlJsonConfig_get (config : JObj) (keyPath : List Char) (dflt : Json) :
    Json :=
  match cfgWalk (Json.obj config) (keyPath.splitOn '.') with
  | some v => v
  | none => dflt

/-- The loop of `CtlJsonConfig.set`: create missing intermediate dicts and
assign the final key.  `none` models the `TypeError` Python raises when an
intermediate key holds a non-dict value. -/
def cfgSetGo : JObj → List (List Char) → Json → Option JObj
  | cur, [k], v => some (dictSet cur k v)
  | cur, k :: ks, v =>
    (match dictGet cur k with
     | none => (cfgSetGo [] ks v).map (fun sub => dictSet cur k (Json.obj sub))
     | some (Json.obj sub) =>
       (cfgSetGo sub ks v).map (fun sub2 => dictSet cur k (Json.obj sub2))
     | some _ => none)
  | _, [], _ => none

/-- `CtlJsonConfig.set`: dot-separated path assignment. -/
def CtlJsonConfig_set (config : JObj) (keyPath : List Char) (v : Json) :
    Option JObj :=
  cfgSetGo config (keyPath.splitOn '.') v

/-- Every intermediate key of the path is either absent from the current
dict or holds a dict. -/
def intermediateOk : JObj → List (List Char) → Bool
  | _, [] => true
  | _, [_] => true
  | cur, k :: ks =>
    (match dictGet cur k with
     | none => true
     | some (Json.obj sub) => intermediateOk sub ks
     | some _ => false)

/-- Some key along the path is missing or is reached through a non-dict
value. -/
def pathBroken : Json → List (List Char) → Bool
  | _, [] => false
  | Json.obj kvs, k :: ks =>
    (match dictGet kvs k with
     | none => true
     | some v => pathBroken v ks)
  | _, _ :: _ => true

/-! ### `PerformanceAnalyzer` (scripts/ci/check_benchmark_regression.py)

Python floats are modelled as exact rationals.  Benchmark collections are
dicts from names to results; the `load_benchmark_results` file parsing is
abstracted: `run_analysis` is analysed from the loaded collections, an
empty collection standing for a load failure (the code's
`if not current_results` test cannot tell the two apart). -/

structure BenchmarkRes where
  value : ℚ
  unit : List Char

structure RegressionRes where
  benchmark_name : List Char
  current_value : ℚ
  baseline_value : ℚ
  change_percent : ℚ
  is_regression : Bool
  severity : List Char

/-- `PerformanceAnalyzer.normalize_unit`: convert to milliseconds (or MB),
unknown units multiplying by 1. -/
def normalize_unit (value : ℚ) (unit : List Char) : ℚ :=
  value *
    (if unit = "ns".data then 1/1000000
     else if unit = "us".data then 1/1000
     else if unit = "ms".data then 1
     else if unit = "s".data then 1000
     else if unit = "MB".data then 1
     else if unit = "KB".data then 1/1000
     else if unit = "B".data then 1/1000000
     else 1)

/-- Generic loop body: append the produced element, if any. -/
def collectStep {α β : Type} (f : α → Option β) (acc : List β) (a : α) :
    List β :=
  match f a with
  | some b => acc ++ [b]
  | none => acc

/-- One iteration of `PerformanceAnalyzer.analyze_regression`. -/
def analyzeOne (baseline : List (List Char × BenchmarkRes))
    (p : List Char × BenchmarkRes) : Option RegressionRes :=
  match dictGet baseline p.1 with
  | none => none
  | some baseRes =>
    let cn := normalize_unit p.2.value p.2.unit
    let bn := normalize_unit baseRes.value baseRes.unit
    if bn = 0 then none
    else
      let change := (cn - bn) / bn * 100
      let isReg := decide (change > 5)
      let sev := if change > 25 then "critical".data
                 else if change > 10 then "major".data
                 else "minor".data
      if isReg || decide (|change| > 2) then
        some ⟨p.1, cn, bn, change, isReg, sev⟩
      else none

/-- `PerformanceAnalyzer.analyze_regression`. -/
def analyze_regression (current baseline : List (List Char × BenchmarkRes)) :
    List RegressionRes :=
  current.foldl (collectStep (analyzeOne baseline)) []

/-- `PerformanceAnalyzer.CRITICAL_BENCHMARKS` (name, threshold). -/
def CRITICAL_BENCHMARKS : List (List Char × ℚ) :=
  [("hnsw_search_latency".data, 5),
   ("vector_distance_calculation".data, 1),
   ("embedding_generation".data, 100),
   ("memory_allocation".data, 10),
   ("startup_time".data, 2000)]

/-- One iteration of `check_critical_thresholds` (the violation message is
abstracted to the benchmark name). -/
def violOne (current : List (List Char × BenchmarkRes))
    (p : List Char × ℚ) : Option (List Char) :=
  match dictGet current p.1 with
  | none => none
  | some res =>
    if normalize_unit res.value res.unit > p.2 then some p.1 else none

/-- `PerformanceAnalyzer.check_critical_thresholds`. -/
def check_critical_thresholds (current : List (List Char × BenchmarkRes)) :
    List (List Char) :=
  CRITICAL_BENCHMARKS.foldl (collectStep (violOne current)) []

/-- The regression list built by `run_analysis`: empty when the baseline
file is missing (`none`) or loads to nothing. -/
def regressionsOf (current : List (List Char × BenchmarkRes))
    (baseline : Option (List (List Char × BenchmarkRes))) :
    List RegressionRes :=
  match baseline with
  | some b => if b.isEmpty then [] else analyze_regression current b
  | none => []

/-- `PerformanceAnalyzer.run_analysis`: the exit status. -/
def run_analysis (current : List (List Char × BenchmarkRes))
    (baseline : Option (List (List Char × BenchmarkRes))) : Nat :=
  if current.isEmpty then 1
  else
    let violations := check_critical_thresholds current
    let regressions := regressionsOf current baseline
    let criticalIssues :=
      (regressions.filter (fun r => r.severity == "critical".data)).length
        + violations.length
    let majorIssues :=
      (regressions.filter (fun r => r.severity == "major".data)).length
    if criticalIssues > 0 then 2
    else if majorIssues > 0 then 1
    else 0

/-! ### `restore_from_cursor_history.py`

A Cursor history layout is the list of history directories (each with the
parsed content of its `entries.json`, `none` covering a missing file,
unreadable JSON or a non-directory — all skipped by the script), plus
oracles for file existence and for the success of `shutil.copy2`.  URL
percent-decoding is modelled byte-for-byte (multi-byte UTF-8 sequences in
paths are not recombined); Windows path comparison is modelled
case-sensitively.  `timestamp` values are integers. -/

structure HistEntry where
  id : List Char
  timestamp : Int

structure EntriesData where
  resource : List Char
  entries : List HistEntry

structure HistDir where
  name : List Char
  data : Option EntriesData

structure CursorLayout where
  dirs : List HistDir
  fileExists : List Char → List Char → Bool
  copyOk : List Char → List Char → Bool

/-- `urllib.parse.unquote`, byte-wise. -/
def percentDecodeF : Nat → List Char → List Char
  | 0, _ => []
  | _, [] => []
  | fuel+1, '%' :: h1 :: h2 :: r =>
    (match hexVal h1, hexVal h2 with
     | some d1, some d2 =>
       Char.ofNat (d1 * 16 + d2) :: percentDecodeF fuel r
     | _, _ => '%' :: percentDecodeF fuel (h1 :: h2 :: r))
  | fuel+1, c :: r => c :: percentDecodeF fuel r

def percentDecode (s : List Char) : List Char := percentDecodeF s.length s

/-- Python `str.replace` (all occurrences, left to right). -/
def replaceSubF : Nat → List Char → List Char → List Char → List Char
  | 0, _, _, _ => []
  | _, [], _, _ => []
  | fuel+1, c :: r, pat, rep =>
    if pat.isPrefixOf (c :: r) ∧ pat ≠ [] then
      rep ++ replaceSubF fuel ((c :: r).drop pat.length) pat rep
    else c :: replaceSubF fuel r pat rep

def replaceSub (s pat rep : List Char) : List Char :=
  replaceSubF s.length s pat rep

/-- `extract_file_path_from_resource`: take everything after `file:///`,
percent-decode, turn slashes into backslashes, then the two literal
replacements. -/
def extract_file_path_from_resource (resource : List Char) :
    Option (List Char) :=
  match pyFind "file:///".data resource 0 with
  | none => none
  | some i =>
    let encoded := (resource.drop (i + 8)).takeWhile (fun c => c ≠ '\n')
    let decoded := (percentDecode encoded).map
      (fun c => if c = '/' then '\\' else c)
    some (replaceSub (replaceSub decoded "%3A".data ":".data)
      "c:".data "C:".data)

/-- Windows path components (separator `\`, empty components dropped). -/
def winParts (p : List Char) : List (List Char) :=
  (p.splitOn '\\').filter (fun c => !c.isEmpty)

def magrayBase : List Char :=
  "C:\\Users\\1\\Documents\\GitHub\\MAGRAY_Cli".data

/-- `file_path.relative_to(...MAGRAY_Cli)`: the remaining components, or
`none` (a `ValueError` skipping the directory) when the path is not below
the base. -/
def relTo (p : List Char) : Option (List (List Char)) :=
  let bp := winParts magrayBase
  let pp := winParts p
  if bp.isPrefixOf pp then some (pp.drop bp.length) else none

/-- The relative path of a restore target. -/
abbrev RelKey := List (List Char)

structure RestoreInfo where
  source : List Char × List Char
  target : List Char
  timestamp : Int

/-- What one history directory contributes: its relative project path and
restore record, if it qualifies (resource mentions MAGRAY_Cli, the path
decodes and lies below the project root, the entries list is non-empty and
the last entry's file exists). -/
def dirInfo (L : CursorLayout) (d : HistDir) :
    Option (RelKey × RestoreInfo) :=
  match d.data with
  | none => none
  | some dd =>
    if containsSub "MAGRAY_Cli".data dd.resource then
      match extract_file_path_from_resource dd.resource with
      | none => none
      | some filePath =>
        match dd.entries.getLast? with
        | none => none
        | some last =>
          if L.fileExists d.name last.id then
            match relTo filePath with
            | none => none
            | some rel =>
              some (rel, ⟨(d.name, last.id), filePath, last.timestamp⟩)
          else none
    else none

/-- One iteration of the `find_magray_files` loop: keep only the newest
version of each relative path (strictly greater timestamps replace). -/
def fmStep (L : CursorLayout) (m : List (RelKey × RestoreInfo))
    (d : HistDir) : List (RelKey × RestoreInfo) :=
  match dirInfo L d with
  | none => m
  | some (rel, info) =>
    match dictGet m rel with
    | none => dictSet m rel info
    | some old =>
      if old.timestamp < info.timestamp then dictSet m rel info else m

/-- `find_magray_files`. -/
def find_magray_files (L : CursorLayout) : List (RelKey × RestoreInfo) :=
  L.dirs.foldl (fmStep L) []

/-- `restore_files`: attempt every selected copy (parent directories are
created unconditionally) and count successes and failures; the performed
`(source, target)` copy operations are returned for inspection.  (Python
iterates `sorted(files.items())`; the counts and the set of operations do
not depend on that order.) -/
def restoreStep (L : CursorLayout)
    (acc : Nat × Nat × List ((List Char × List Char) × List Char))
    (p : RelKey × RestoreInfo) :
    Nat × Nat × List ((List Char × List Char) × List Char) :=
  if L.copyOk p.2.source.1 p.2.source.2 then
    (acc.1 + 1, acc.2.1, acc.2.2 ++ [(p.2.source, p.2.target)])
  else (acc.1, acc.2.1 + 1, acc.2.2 ++ [(p.2.source, p.2.target)])

def restore_files (L : CursorLayout) (m : List (RelKey × RestoreInfo)) :
    Nat × Nat × List ((List Char × List Char) × List Char) :=
  m.foldl (restoreStep L) (0, 0, [])

/-- A concrete layout for exercising `find_magray_files`: two qualifying
directories for the same project file with timestamps 1 and 5, and one
skipped directory. -/
def c5Layout : CursorLayout :=
  ⟨[⟨"d1".data, some ⟨"file:///c%3A/Users/1/Documents/GitHub/MAGRAY_Cli/src/a.rs".data,
      [⟨"e1".data, 1⟩]⟩⟩,
    ⟨"d2".data, some ⟨"file:///c%3A/Users/1/Documents/GitHub/MAGRAY_Cli/src/a.rs".data,
      [⟨"e0".data, 9⟩, ⟨"e2".data, 5⟩]⟩⟩,
    ⟨"d3".data, none⟩],
   fun _ _ => true, fun _ _ => true⟩

/-! ## Theorems -/

/-! ### Properties of the scan primitive -/

theorem scanFind_some {p : Nat → Bool} {fuel start i : Nat}
    (h : scanFind p start fuel = some i) :
    start ≤ i ∧ i < start + fuel ∧ p i = true ∧
      ∀ j, start ≤ j → j < i → p j = false := by
  induction fuel generalizing start with
  | zero => simp [scanFind] at h
  | succ n ih =>
    rw [scanFind] at h
    by_cases hp : p start
    · simp [hp] at h
      subst h
      exact ⟨Nat.le_refl _, by omega, hp, fun j h1 h2 => by omega⟩
    · simp [hp] at h
      obtain ⟨h1, h2, h3, h4⟩ := ih h
      refine ⟨by omega, by omega, h3, fun j hj1 hj2 => ?_⟩
      rcases Nat.eq_or_lt_of_le hj1 with rfl | hlt
      · exact Bool.of_not_eq_true hp
      · exact h4 j hlt hj2

theorem scanFind_none {p : Nat → Bool} {fuel start : Nat}
    (h : scanFind p start fuel = none) :
    ∀ j, start ≤ j → j < start + fuel → p j = false := by
  induction fuel generalizing start with
  | zero => intro j h1 h2; omega
  | succ n ih =>
    rw [scanFind] at h
    by_cases hp : p start
    · simp [hp] at h
    · simp [hp] at h
      intro j h1 h2
      rcases Nat.eq_or_lt_of_le h1 with rfl | hlt
      · exact Bool.of_not_eq_true hp
      · exact ih h j hlt (by omega)

theorem scanFind_eq_some {p : Nat → Bool} {fuel start i : Nat}
    (h1 : start ≤ i) (h2 : i < start + fuel) (h3 : p i = true)
    (h4 : ∀ j, start ≤ j → j < i → p j = false) :
    scanFind p start fuel = some i := by
  induction fuel generalizing start with
  | zero => omega
  | succ n ih =>
    rw [scanFind]
    rcases Nat.eq_or_lt_of_le h1 with rfl | hlt
    · simp [h3]
    · have hps : p start = false := h4 start (Nat.le_refl _) hlt
      simp [hps]
      exact ih hlt (by omega) (fun j hj1 hj2 => h4 j (by omega) hj2)

theorem occursAt_lt_length {pat s : List Char} {i : Nat}
    (h : occursAt pat s i) (hne : pat ≠ []) : i < s.length := by
  unfold occursAt at h
  cases pat with
  | nil => exact absurd rfl hne
  | cons c cs =>
    cases hd : s.drop i with
    | nil => rw [hd] at h; simp [List.isPrefixOf] at h
    | cons d ds =>
      by_contra hcon
      have : s.length ≤ i := by omega
      have : s.drop i = [] := List.drop_eq_nil_of_le this
      rw [this] at hd; exact absurd hd.symm (List.cons_ne_nil d ds)

theorem pyFind_eq_some {pat s : List Char} {start i : Nat}
    (h : firstOccFrom pat s start i) (hne : pat ≠ []) :
    pyFind pat s start = some i := by
  obtain ⟨h1, h2, h3⟩ := h
  have hi : i < s.length := occursAt_lt_length h2 hne
  exact scanFind_eq_some h1 (by omega) h2
    (fun j hj1 hj2 => by
      have := h3 j hj1 hj2
      exact Bool.not_eq_true _ ▸ Bool.of_not_eq_true this)

theorem pyFind_eq_none {pat s : List Char} {start : Nat}
    (h : ∀ j, start ≤ j → ¬ occursAt pat s j) :
    pyFind pat s start = none := by
  cases hf : pyFind pat s start with
  | none => rfl
  | some i =>
    obtain ⟨h1, _, h3, _⟩ := scanFind_some hf
    exact absurd h3 (h i h1)

/-! ### Claim C1 -/

/-- C1: `CtlSync.replace_architecture_section` keeps the text before the
first occurrence of `# AUTO-GENERATED ARCHITECTURE` and the text from the
first occurrence of `# AUTO-GENERATED COMPONENT STATUS` at or after that
marker onward character-for-character unchanged, replacing only the region
between the two markers by the new section followed by two newlines; if the
start marker is absent the result is the content, two newlines and the new
section; if only the end marker is absent, everything from the start marker
to the end of the content is replaced. -/
theorem C1_replace_architecture_section_frame (content newSection : List Char) :
    ((∀ j, ¬ occursAt startMarker content j) →
      replace_architecture_section content newSection
        = content ++ nl2 ++ newSection)
  ∧ (∀ s e, firstOccFrom startMarker content 0 s →
      firstOccFrom endMarker content s e →
      replace_architecture_section content newSection
        = content.take s ++ newSection ++ nl2 ++ content.drop e)
  ∧ (∀ s, firstOccFrom startMarker content 0 s →
      (∀ j, s ≤ j → ¬ occursAt endMarker content j) →
      replace_architecture_section content newSection
        = content.take s ++ newSection ++ nl2) := by
  refine ⟨fun h => ?_, fun s e hs he => ?_, fun s hs hnoe => ?_⟩
  · have hn : pyFind startMarker content 0 = none :=
      pyFind_eq_none (fun j _ => h j)
    unfold replace_architecture_section
    rw [hn]
  · have h1 : pyFind startMarker content 0 = some s :=
      pyFind_eq_some hs (by decide)
    have h2 : pyFind endMarker content s = some e :=
      pyFind_eq_some he (by decide)
    unfold replace_architecture_section
    rw [h1]
    dsimp only
    rw [h2]
    rfl
  · have h1 : pyFind startMarker content 0 = some s :=
      pyFind_eq_some hs (by decide)
    have h2 : pyFind endMarker content s = none := pyFind_eq_none hnoe
    unfold replace_architecture_section
    rw [h1]
    dsimp only
    rw [h2]
    simp

/-! ### Dict lemmas -/

theorem dictGet_dictSet {κ α : Type} [BEq κ] [LawfulBEq κ]
    (o : List (κ × α)) (k : κ) (v : α) :
    dictGet (dictSet o k v) k = some v := by
  induction o with
  | nil => simp [dictGet, dictSet]
  | cons p ps ih =>
    cases hp : (p.1 == k) with
    | true => simp [dictGet, dictSet, hp]
    | false => simp [dictGet, dictSet, hp, ih]

theorem dictGet_dictSet_ne {κ α : Type} [BEq κ] [LawfulBEq κ]
    (o : List (κ × α)) (k k2 : κ) (v : α)
    (h : (k2 == k) = false) :
    dictGet (dictSet o k2 v) k = dictGet o k := by
  induction o with
  | nil => simp [dictGet, dictSet, h]
  | cons p ps ih =>
    cases hp : (p.1 == k2) with
    | true =>
      have hpk : (p.1 == k) = false := by
        have h1 : p.1 = k2 := by simpa using hp
        simpa [h1] using h
      simp [dictGet, dictSet, hp, h, hpk]
    | false => simp [dictGet, dictSet, hp, ih]

/-! ### Claim C7 -/

theorem intermediateOk_nil (ks : List (List Char)) :
    intermediateOk [] ks = true := by
  cases ks with
  | nil => rfl
  | cons k ks2 =>
    cases ks2 with
    | nil => rfl
    | cons a b => simp [intermediateOk, dictGet]

theorem cfgSetGo_walk (v : Json) :
    ∀ (ks : List (List Char)) (cur : JObj), ks ≠ [] →
      intermediateOk cur ks = true →
      ∃ out, cfgSetGo cur ks v = some out ∧
        cfgWalk (Json.obj out) ks = some v := by
  intro ks
  induction ks with
  | nil => intro cur h; exact absurd rfl h
  | cons k ks ih =>
    intro cur _ hok
    cases ks with
    | nil =>
      exact ⟨dictSet cur k v, rfl, by simp [cfgWalk, dictGet_dictSet]⟩
    | cons k2 ks2 =>
      cases hg : dictGet cur k with
      | none =>
        obtain ⟨out, ho, hw⟩ := ih [] (by simp) (intermediateOk_nil _)
        refine ⟨dictSet cur k (Json.obj out), ?_, ?_⟩
        · simp [cfgSetGo, hg, ho]
        · simp only [cfgWalk, dictGet_dictSet]
          simpa only [cfgWalk] using hw
      | some w =>
        cases w with
        | null => simp [intermediateOk, hg] at hok
        | bool b => simp [intermediateOk, hg] at hok
        | int n => simp [intermediateOk, hg] at hok
        | float r => simp [intermediateOk, hg] at hok
        | str s => simp [intermediateOk, hg] at hok
        | arr a => simp [intermediateOk, hg] at hok
        | obj sub =>
          have hok2 : intermediateOk sub (k2 :: ks2) = true := by
            simpa [intermediateOk, hg] using hok
          obtain ⟨out, ho, hw⟩ := ih sub (by simp) hok2
          refine ⟨dictSet cur k (Json.obj out), ?_, ?_⟩
          · simp [cfgSetGo, hg, ho]
          · simp only [cfgWalk, dictGet_dictSet]
            simpa only [cfgWalk] using hw

theorem cfgWalk_eq_none_of_broken :
    ∀ (ks : List (List Char)) (v : Json), pathBroken v ks = true →
      cfgWalk v ks = none := by
  intro ks
  induction ks with
  | nil => intro v h; simp [pathBroken] at h
  | cons k ks ih =>
    intro v h
    cases v with
    | obj kvs =>
      cases hg : dictGet kvs k with
      | none => simp [cfgWalk, hg]
      | some w =>
        have hb : pathBroken w ks = true := by
          simpa [pathBroken, hg] using h
        simp [cfgWalk, hg, ih w hb]
    | null => simp [cfgWalk]
    | bool b => simp [cfgWalk]
    | int n => simp [cfgWalk]
    | float r => simp [cfgWalk]
    | str s => simp [cfgWalk]
    | arr a => simp [cfgWalk]

/-- C7: for every configuration and every dot-separated key path whose
intermediate keys each are absent or map to dicts, `CtlJsonConfig.set`
succeeds and a subsequent `CtlJsonConfig.get` of the same path returns
exactly the stored value; and `get` returns the supplied default whenever
some key along the path is missing or reached through a non-dict value. -/
theorem C7_config_get_set_roundtrip (config : JObj) (keyPath : List Char)
    (v dflt : Json) :
    (intermediateOk config (keyPath.splitOn '.') = true →
      ∃ cfg2, CtlJsonConfig_set config keyPath v = some cfg2 ∧
        CtlJsonConfig_get cfg2 keyPath dflt = v)
  ∧ (pathBroken (Json.obj config) (keyPath.splitOn '.') = true →
      CtlJsonConfig_get config keyPath dflt = dflt) := by
  constructor
  · intro hok
    have hne : keyPath.splitOn '.' ≠ [] := List.splitOnP_ne_nil _ _
    obtain ⟨out, ho, hw⟩ := cfgSetGo_walk v _ config hne hok
    exact ⟨out, ho, by unfold CtlJsonConfig_get; rw [hw]⟩
  · intro hb
    unfold CtlJsonConfig_get
    rw [cfgWalk_eq_none_of_broken _ _ hb]

/-- Witness for C7: storing `7` at the fresh path `a.b` of the empty
configuration and reading it back; reading a missing path returns the
default. -/
theorem C7_config_get_set_roundtrip_witness :
    (intermediateOk [] ("a.b".data.splitOn '.') = true ∧
      ∃ cfg2, CtlJsonConfig_set [] "a.b".data (Json.int 7) = some cfg2 ∧
        CtlJsonConfig_get cfg2 "a.b".data Json.null = Json.int 7) ∧
    (pathBroken (Json.obj []) ("x".data.splitOn '.') = true ∧
      CtlJsonConfig_get [] "x".data (Json.str "d".data) = Json.str "d".data) :=
  ⟨⟨rfl, (C7_config_get_set_roundtrip [] "a.b".data (Json.int 7) Json.null).1 rfl⟩,
   ⟨rfl, (C7_config_get_set_roundtrip [] "x".data (Json.int 0)
      (Json.str "d".data)).2 rfl⟩⟩

/-! ### Claim C3 -/

/-- C3: whenever a line carries a CTL v3.0 annotation (the annotation
pattern matches with capture `tensorStr`, and the tensor pattern matches
inside it with groups `g1`, `g2`, `g3`), `Ctl3Parser.parse_line` returns a
component whose `id` is the trimmed id group, whose `t` is the trimmed type
group followed by " (CTL v3.0)", whose `k` is inferred from the type by
`infer_kind_from_type` (first keyword of test/agent/batch/function/module/
service/resource/process/data/error, defaulting to `C`), whose
`ctl3_tensor` is the captured tensor string; `m` is `{cur, tgt, u: "%"}`
from the first maturity-operator match, and `d` is the comma-split,
trimmed list from the first composition-operator match. -/
theorem C3_ctl3_parse_line_fields (line : List Char) (lineNo : Nat)
    (filePath : List Char) (tensorStr g1 g2 g3 : List Char)
    (hc : ctl3Capture line = some tensorStr)
    (ht : tensorSearch tensorStr = some (g1, g2, g3)) :
    ∃ comp, ctl3_parse_line line lineNo filePath = some comp ∧
      dictGet comp "id".data = some (Json.str (pyStrip g1)) ∧
      dictGet comp "t".data
        = some (Json.str (pyStrip g2 ++ " (CTL v3.0)".data)) ∧
      dictGet comp "k".data
        = some (Json.str [infer_kind_from_type (pyStrip g2)]) ∧
      dictGet comp "ctl3_tensor".data = some (Json.str tensorStr) ∧
      (∀ cur tgt, maturitySearch (pyStrip g3) = some (cur, tgt) →
        dictGet comp "m".data = some (Json.obj
          [("cur".data, Json.int (Int.ofNat cur)),
           ("tgt".data, Json.int (Int.ofNat tgt)),
           ("u".data, Json.str "%".data)])) ∧
      (∀ depsStr, depSearch (pyStrip g3) = some depsStr →
        dictGet comp "d".data = some (Json.arr
          ((depsStr.splitOn ',').map (fun d => Json.str (pyStrip d))))) := by
  unfold ctl3_parse_line ctl3_parse_tensor
  rw [hc]
  dsimp only
  rw [ht]
  dsimp only
  cases hm : maturitySearch (pyStrip g3) with
  | none =>
    cases hd : depSearch (pyStrip g3) with
    | none =>
      by_cases hf : (extractFlags (pyStrip g3)).isEmpty
      · rw [if_pos hf]
        refine ⟨_, rfl, rfl, rfl, rfl, rfl, ?_, ?_⟩
        · intro cur tgt h; exact Option.noConfusion h
        · intro depsStr h; exact Option.noConfusion h
      · rw [if_neg hf]
        refine ⟨_, rfl, rfl, rfl, rfl, rfl, ?_, ?_⟩
        · intro cur tgt h; exact Option.noConfusion h
        · intro depsStr h; exact Option.noConfusion h
    | some depsStr0 =>
      by_cases hf : (extractFlags (pyStrip g3)).isEmpty
      · rw [if_pos hf]
        refine ⟨_, rfl, rfl, rfl, rfl, rfl, ?_, ?_⟩
        · intro cur tgt h; exact Option.noConfusion h
        · intro depsStr h; injection h with h2; subst h2; rfl
      · rw [if_neg hf]
        refine ⟨_, rfl, rfl, rfl, rfl, rfl, ?_, ?_⟩
        · intro cur tgt h; exact Option.noConfusion h
        · intro depsStr h; injection h with h2; subst h2; rfl
  | some ct =>
    obtain ⟨c0, t0⟩ := ct
    cases hd : depSearch (pyStrip g3) with
    | none =>
      by_cases hf : (extractFlags (pyStrip g3)).isEmpty
      · rw [if_pos hf]
        refine ⟨_, rfl, rfl, rfl, rfl, rfl, ?_, ?_⟩
        · intro cur tgt h; injection h with h2
          rw [Prod.mk.injEq] at h2; obtain ⟨rfl, rfl⟩ := h2; rfl
        · intro depsStr h; exact Option.noConfusion h
      · rw [if_neg hf]
        refine ⟨_, rfl, rfl, rfl, rfl, rfl, ?_, ?_⟩
        · intro cur tgt h; injection h with h2
          rw [Prod.mk.injEq] at h2; obtain ⟨rfl, rfl⟩ := h2; rfl
        · intro depsStr h; exact Option.noConfusion h
    | some depsStr0 =>
      by_cases hf : (extractFlags (pyStrip g3)).isEmpty
      · rw [if_pos hf]
        refine ⟨_, rfl, rfl, rfl, rfl, rfl, ?_, ?_⟩
        · intro cur tgt h; injection h with h2
          rw [Prod.mk.injEq] at h2; obtain ⟨rfl, rfl⟩ := h2; rfl
        · intro depsStr h; injection h with h2; subst h2; rfl
      · rw [if_neg hf]
        refine ⟨_, rfl, rfl, rfl, rfl, rfl, ?_, ?_⟩
        · intro cur tgt h; injection h with h2
          rw [Prod.mk.injEq] at h2; obtain ⟨rfl, rfl⟩ := h2; rfl
        · intro depsStr h; injection h with h2; subst h2; rfl

/-- Witness for C3 on a concrete CTL v3.0 annotation line with maturity and
dependency operators. -/
theorem C3_ctl3_parse_line_fields_witness :
    ctl3Capture
      "// @ctl3: D[hnsw:Service x] := {grad[70->95] compose[a,b]}".data
      = some "D[hnsw:Service x] := {grad[70->95] compose[a,b]}".data ∧
    tensorSearch "D[hnsw:Service x] := {grad[70->95] compose[a,b]}".data
      = some ("hnsw".data, "Service x".data, "grad[70->95] compose[a,b]".data) ∧
    ∃ comp, ctl3_parse_line
        "// @ctl3: D[hnsw:Service x] := {grad[70->95] compose[a,b]}".data
        4 "m.rs".data = some comp ∧
      dictGet comp "id".data = some (Json.str (pyStrip "hnsw".data)) ∧
      dictGet comp "t".data
        = some (Json.str (pyStrip "Service x".data ++ " (CTL v3.0)".data)) ∧
      dictGet comp "k".data
        = some (Json.str [infer_kind_from_type (pyStrip "Service x".data)]) ∧
      dictGet comp "ctl3_tensor".data
        = some (Json.str "D[hnsw:Service x] := {grad[70->95] compose[a,b]}".data) ∧
      (∀ cur tgt,
        maturitySearch (pyStrip "grad[70->95] compose[a,b]".data)
          = some (cur, tgt) →
        dictGet comp "m".data = some (Json.obj
          [("cur".data, Json.int (Int.ofNat cur)),
           ("tgt".data, Json.int (Int.ofNat tgt)),
           ("u".data, Json.str "%".data)])) ∧
      (∀ depsStr,
        depSearch (pyStrip "grad[70->95] compose[a,b]".data) = some depsStr →
        dictGet comp "d".data = some (Json.arr
          ((depsStr.splitOn ',').map (fun d => Json.str (pyStrip d))))) :=
  ⟨by decide, by decide,
   C3_ctl3_parse_line_fields _ 4 "m.rs".data _ _ _ _ (by decide) (by decide)⟩

/-! ### Claim C8 -/

theorem validate_true_pyd_nil {c : JObj} (h : (validate_ctl2 c).1 = true) :
    pydanticErrors c = [] := by
  unfold validate_ctl2 at h
  by_cases hp : (pydanticErrors c).isEmpty
  · exact List.isEmpty_iff.mp hp
  · simp [hp] at h

theorem errK_nil_kind {c : JObj} (h : errK c = []) :
    ∃ s, dictGet c "k".data = some (Json.str s) ∧ matchesKPattern s = true := by
  unfold errK at h
  cases hg : dictGet c "k".data with
  | none => rw [hg] at h; cases h
  | some j =>
    rw [hg] at h
    cases j with
    | str s =>
      by_cases hp : matchesKPattern s
      · exact ⟨s, rfl, hp⟩
      · simp [hp] at h
    | null => cases h
    | bool b => cases h
    | int n => cases h
    | float r => cases h
    | arr l => cases h
    | obj o => cases h

theorem matchesKPattern_ne_E {s : List Char}
    (h : matchesKPattern s = true) : s ≠ "E".data := by
  intro he
  subst he
  exact absurd h (by decide)

/-- C8 (amended): a component whose `k` field is the string `E` always
fails `CtlSchema.validate_ctl2` with a non-empty error list (the pydantic
pattern for `k` admits only the ten letters `TABFMSRPDC`), so
`CtlSync.extract_components` never returns a component of kind `E`, even
though the JSON-schema enum lists `E` as valid and `infer_kind_from_type`
produces `E` for every type string that contains "error" and none of the
nine higher-priority keywords (test, agent, batch, function, module,
service, resource, process, data). -/
theorem C8_kind_E_rejected :
    (∀ c : JObj, dictGet c "k".data = some (Json.str "E".data) →
      (validate_ctl2 c).1 = false ∧ (validate_ctl2 c).2 ≠ [])
  ∧ (∀ content filePath : List Char, ∀ c ∈ extract_components content filePath,
      dictGet c "k".data ≠ some (Json.str "E".data))
  ∧ "E".data ∈ schemaEnumK
  ∧ (∀ t : List Char,
      containsSub "error".data (t.map Char.toLower) = true →
      containsSub "test".data (t.map Char.toLower) = false →
      containsSub "agent".data (t.map Char.toLower) = false →
      containsSub "batch".data (t.map Char.toLower) = false →
      containsSub "function".data (t.map Char.toLower) = false →
      containsSub "module".data (t.map Char.toLower) = false →
      containsSub "service".data (t.map Char.toLower) = false →
      containsSub "resource".data (t.map Char.toLower) = false →
      containsSub "process".data (t.map Char.toLower) = false →
      containsSub "data".data (t.map Char.toLower) = false →
      infer_kind_from_type t = 'E') := by
  have herrK : ∀ c : JObj, dictGet c "k".data = some (Json.str "E".data) →
      errK c = ["k pattern".data] := by
    intro c hg
    unfold errK
    rw [hg]
    decide
  refine ⟨fun c hg => ?_, fun content filePath c hc => ?_, by decide,
    fun t h0 h1 h2 h3 h4 h5 h6 h7 h8 h9 => ?_⟩
  · have hpe : pydanticErrors c ≠ [] := by
      unfold pydanticErrors
      rw [herrK c hg]
      simp
    unfold validate_ctl2
    have : (pydanticErrors c).isEmpty = false := by
      simpa [List.isEmpty_iff] using hpe
    simp [this]
    exact hpe
  · intro hg
    have hv : (validate_ctl2 c).1 = true :=
      (List.mem_filter.mp hc).2
    have hpe := validate_true_pyd_nil hv
    have hkn : errK c = [] := by
      unfold pydanticErrors at hpe
      simp only [List.append_eq_nil] at hpe
      exact hpe.1.1.1.1.1.1.1.1.1.1
    obtain ⟨s, hs, hp⟩ := errK_nil_kind hkn
    rw [hs] at hg
    simp only [Option.some.injEq, Json.str.injEq] at hg
    exact matchesKPattern_ne_E hp hg
  · unfold infer_kind_from_type
    simp [h0, h1, h2, h3, h4, h5, h6, h7, h8, h9]

/-- Counterexample to C8 as stated: `infer_kind_from_type` does not map
every "error"-containing type string to `E`; at "test error" the keyword
"test" wins and the result is `T`. -/
theorem C8_counterexample :
    containsSub "error".data ("test error".data.map Char.toLower) = true ∧
    infer_kind_from_type "test error".data = 'T' ∧ ('T' : Char) ≠ 'E' :=
  ⟨by decide, by decide, by decide⟩

/-- Witness for C8 on the concrete component `{"k": "E"}` and the type
string "error". -/
theorem C8_kind_E_rejected_witness :
    ((validate_ctl2 [("k".data, Json.str "E".data)]).1 = false ∧
      (validate_ctl2 [("k".data, Json.str "E".data)]).2 ≠ []) ∧
    infer_kind_from_type "error".data = 'E' :=
  ⟨C8_kind_E_rejected.1 [("k".data, Json.str "E".data)] rfl,
   C8_kind_E_rejected.2.2.2 "error".data (by decide) (by decide) (by decide)
     (by decide) (by decide) (by decide) (by decide) (by decide) (by decide)
     (by decide)⟩

/-! ### Claim C10 -/

/-- C10: `FileCache.is_changed` leaves the stored hash for the file equal
to its current hash (absent entries reading as `""`), returns `True`
exactly when the current hash differs from the previously stored one, and a
second immediate call for the same unchanged file returns `False`. -/
theorem C10_is_changed_spec (hashFn : List Char → List Char) (hashes : Cache)
    (content : Option (List Char)) (rel : List Char) :
    ((dictGet (is_changed hashFn hashes content rel).2 rel).getD []
        = get_hash hashFn content) ∧
    ((is_changed hashFn hashes content rel).1 = true ↔
      get_hash hashFn content ≠ (dictGet hashes rel).getD []) ∧
    (is_changed hashFn (is_changed hashFn hashes content rel).2
        content rel).1 = false := by
  unfold is_changed
  by_cases h : get_hash hashFn content = (dictGet hashes rel).getD []
  · simp [h]
  · simp [h, dictGet_dictSet]

/-! ### Claim C9 -/

theorem strLe_refl (a : List Char) : strLe a a = true := by
  induction a with
  | nil => rfl
  | cons c cs ih => simp [strLe, ih]

theorem strLe_eq_lt_or_eq (a b : List Char) :
    strLe a b = (strLt a b || a == b) := by
  induction a generalizing b with
  | nil => cases b <;> rfl
  | cons c cs ih =>
    cases b with
    | nil => rfl
    | cons d ds =>
      by_cases h1 : c.toNat < d.toNat
      · simp [strLe, strLt, h1]
      · by_cases h2 : c.toNat = d.toNat
        · have hcd : c = d := Char.eq_of_val_eq (by
            have : c.val = d.val := by
              apply UInt32.eq_of_val_eq
              exact Fin.eq_of_val_eq h2
            exact this)
          subst hcd
          simp [strLe, strLt, h1, ih]
        · simp [strLe, strLt, h1, h2]
          intro hcon
          exact absurd (congrArg Char.toNat hcon) h2

theorem strTrichotomy (a b : List Char) :
    strLt a b = true ∨ a = b ∨ strLt b a = true := by
  induction a generalizing b with
  | nil => cases b with
    | nil => exact Or.inr (Or.inl rfl)
    | cons d ds => exact Or.inl rfl
  | cons c cs ih =>
    cases b with
    | nil => exact Or.inr (Or.inr rfl)
    | cons d ds =>
      rcases Nat.lt_trichotomy c.toNat d.toNat with h | h | h
      · exact Or.inl (by simp [strLt, h])
      · have hcd : c = d := Char.eq_of_val_eq (by
          apply UInt32.eq_of_val_eq
          exact Fin.eq_of_val_eq h)
        subst hcd
        rcases ih ds with h2 | h2 | h2
        · exact Or.inl (by simp [strLt, h2])
        · exact Or.inr (Or.inl (by rw [h2]))
        · exact Or.inr (Or.inr (by simp [strLt, h2]))
      · refine Or.inr (Or.inr ?_)
        simp only [strLt]
        have h1 : d.toNat < c.toNat := h
        simp [h1]

theorem strLt_trans {a b c : List Char} (h1 : strLt a b = true)
    (h2 : strLt b c = true) : strLt a c = true := by
  induction a generalizing b c with
  | nil =>
    cases b with
    | nil => cases h1
    | cons d ds =>
      cases c with
      | nil => cases h2
      | cons e es => rfl
  | cons x xs ih =>
    cases b with
    | nil => cases h1
    | cons d ds =>
      cases c with
      | nil => cases h2
      | cons e es =>
        simp only [strLt] at h1 h2 ⊢
        by_cases hxd : x.toNat < d.toNat
        · by_cases hde : d.toNat < e.toNat
          · have : x.toNat < e.toNat := by omega
            simp [this]
          · by_cases hde2 : d.toNat = e.toNat
            · have : x.toNat < e.toNat := by omega
              simp [this]
            · simp [hde, hde2] at h2
        · by_cases hxd2 : x.toNat = d.toNat
          · by_cases hde : d.toNat < e.toNat
            · have : x.toNat < e.toNat := by omega
              simp [this]
            · by_cases hde2 : d.toNat = e.toNat
              · have hxe : ¬ x.toNat < e.toNat := by omega
                have hxe2 : x.toNat = e.toNat := by omega
                simp [hxd, hxd2] at h1
                simp [hde, hde2] at h2
                simp [hxe, hxe2]
                exact ih h1 h2
              · simp [hde, hde2] at h2
          · simp [hxd, hxd2] at h1

theorem keyLe_total (c d : JObj) : keyLe c d = true ∨ keyLe d c = true := by
  unfold keyLe
  rcases strTrichotomy (sortKey c).1 (sortKey d).1 with h | h | h
  · exact Or.inl (by simp [h])
  · rcases strTrichotomy (sortKey c).2 (sortKey d).2 with h2 | h2 | h2
    · refine Or.inl ?_
      simp [h, strLe_eq_lt_or_eq, h2]
    · refine Or.inl ?_
      simp [h, strLe_eq_lt_or_eq, h2]
    · refine Or.inr ?_
      simp [h.symm, strLe_eq_lt_or_eq, h2]
  · exact Or.inr (by simp [h])

theorem keyLe_trans {c d e : JObj} (h1 : keyLe c d = true)
    (h2 : keyLe d e = true) : keyLe c e = true := by
  unfold keyLe at h1 h2 ⊢
  simp only [Bool.or_eq_true, Bool.and_eq_true, beq_iff_eq] at h1 h2 ⊢
  rcases h1 with h1 | ⟨h1e, h1le⟩
  · rcases h2 with h2 | ⟨h2e, h2le⟩
    · exact Or.inl (strLt_trans h1 h2)
    · exact Or.inl (h2e ▸ h1)
  · rcases h2 with h2 | ⟨h2e, h2le⟩
    · exact Or.inl (h1e ▸ h2)
    · refine Or.inr ⟨h1e.trans h2e, ?_⟩
      rw [strLe_eq_lt_or_eq] at h1le h2le ⊢
      simp only [Bool.or_eq_true, beq_iff_eq] at h1le h2le ⊢
      rcases h1le with h1l | h1eq
      · rcases h2le with h2l | h2eq
        · exact Or.inl (strLt_trans h1l h2l)
        · exact Or.inl (h2eq ▸ h1l)
      · rcases h2le with h2l | h2eq
        · exact Or.inl (h1eq ▸ h2l)
        · exact Or.inr (h1eq.trans h2eq)

theorem mem_insertLe {le : JObj → JObj → Bool} {a x : JObj} :
    ∀ {l : List JObj}, x ∈ insertLe le a l → x = a ∨ x ∈ l := by
  intro l
  induction l with
  | nil => intro h; simp [insertLe] at h; exact Or.inl h
  | cons b bs ih =>
    intro h
    unfold insertLe at h
    by_cases hle : le a b
    · simp [hle] at h
      rcases h with h | h | h
      · exact Or.inl h
      · exact Or.inr (by simp [h])
      · exact Or.inr (by simp [h])
    · simp [hle] at h
      rcases h with h | h
      · exact Or.inr (by simp [h])
      · rcases ih h with h2 | h2
        · exact Or.inl h2
        · exact Or.inr (by simp [h2])

theorem pairwise_insertLe {le : JObj → JObj → Bool}
    (htot : ∀ a b, le a b = true ∨ le b a = true)
    (htrans : ∀ a b c, le a b = true → le b c = true → le a c = true)
    (a : JObj) :
    ∀ (l : List JObj), l.Pairwise (fun x y => le x y = true) →
      (insertLe le a l).Pairwise (fun x y => le x y = true) := by
  intro l
  induction l with
  | nil => intro _; simp [insertLe]
  | cons b bs ih =>
    intro h
    rw [List.pairwise_cons] at h
    obtain ⟨hb, hbs⟩ := h
    unfold insertLe
    by_cases hle : le a b
    · rw [if_pos hle]
      rw [List.pairwise_cons]
      refine ⟨?_, ?_⟩
      · intro y hy
        rcases hy with _ | hy
        · exact hle
        · exact htrans a b y hle (hb y (by assumption))
      · rw [List.pairwise_cons]
        exact ⟨hb, hbs⟩
    · have hba : le b a = true := by
        rcases htot a b with h | h
        · exact absurd h hle
        · exact h
      rw [if_neg hle]
      rw [List.pairwise_cons]
      refine ⟨?_, ih hbs⟩
      intro y hy
      rcases mem_insertLe hy with rfl | hy2
      · exact hba
      · exact hb y hy2

theorem pairwise_pySort {le : JObj → JObj → Bool}
    (htot : ∀ a b, le a b = true ∨ le b a = true)
    (htrans : ∀ a b c, le a b = true → le b c = true → le a c = true)
    (l : List JObj) :
    (pySort le l).Pairwise (fun x y => le x y = true) := by
  induction l with
  | nil => simp [pySort]
  | cons a as ih => exact pairwise_insertLe htot htrans a _ ih

/-- C9 (amended): every component list returned by `CtlSync.scan_crates`
is sorted in non-decreasing lexicographic order of the key
`(c.get('k', ''), c.get('id', ''))`. -/
theorem C9_scan_crates_sorted (hashFn : List Char → List Char)
    (files : List ScanFile) (cache0 : Cache) :
    ((scan_crates hashFn files cache0).2.1).Pairwise
      (fun c d => keyLe c d = true) :=
  pairwise_pySort keyLe_total (fun _ _ _ => keyLe_trans) _

/-- Counterexample to the determinism part of C9: two files carrying
components with the same `(k, id)` key produce different component lists
(hence different architecture sections) depending on the visit order, so
the output is not a function of the set of scanned files alone. -/
theorem C9_counterexample :
    ((scan_crates (fun _ => []) [c9FileA, c9FileB] []).2.1).map xFileOf
      ≠ ((scan_crates (fun _ => []) [c9FileB, c9FileA] []).2.1).map xFileOf ∧
    (scan_crates (fun _ => []) [c9FileA, c9FileB] []).2.1
      ≠ (scan_crates (fun _ => []) [c9FileB, c9FileA] []).2.1 := by
  constructor
  · decide
  · intro h
    have h2 := congrArg (List.map xFileOf) h
    revert h2
    decide

/-! ### Claim C4 -/

theorem scanStep_eq (hashFn : List Char → List Char)
    (st : Bool × List JObj × Cache) (f : ScanFile)
    (h : f.parts.contains "target".data = false) :
    scanStep hashFn st f
      = (st.1 || fileChanged hashFn st.2.2 f,
         (match f.content with
          | some content => st.2.1 ++ extract_components content (relPathOf f)
          | none => st.2.1),
         if fileChanged hashFn st.2.2 f then
           dictSet st.2.2 (relPathOf f) (get_hash hashFn f.content)
         else st.2.2) := by
  unfold scanStep is_changed fileChanged
  rw [h]
  simp only [Bool.false_eq_true, if_false]
  by_cases hc : get_hash hashFn f.content
      = (dictGet st.2.2 (relPathOf f)).getD [] <;>
    simp [hc, bne_iff_ne]

theorem anyCongr {α : Type} (p q : α → Bool) :
    ∀ (l : List α), (∀ a ∈ l, p a = q a) → l.any p = l.any q := by
  intro l
  induction l with
  | nil => intro _; rfl
  | cons x xs ih =>
    intro h
    simp only [List.any_cons]
    rw [h x (by simp), ih (fun a ha => h a (by simp [ha]))]

theorem fileChanged_set_other {hashFn : List Char → List Char} {mem : Cache}
    {rel cur : List Char} {g : ScanFile} (h : relPathOf g ≠ rel) :
    fileChanged hashFn (dictSet mem rel cur) g = fileChanged hashFn mem g := by
  unfold fileChanged
  rw [dictGet_dictSet_ne]
  exact beq_eq_false_iff_ne.mpr (fun he => h he.symm)

theorem scan_fold_spec (hashFn : List Char → List Char) :
    ∀ (files : List ScanFile) (b : Bool) (comps : List JObj) (mem : Cache),
      ((scannedFiles files).map relPathOf).Nodup →
      ((files.foldl (scanStep hashFn) (b, comps, mem)).1
        = (b || (scannedFiles files).any (fileChanged hashFn mem))) ∧
      ((scannedFiles files).any (fileChanged hashFn mem) = false →
        (files.foldl (scanStep hashFn) (b, comps, mem)).2.2 = mem) := by
  intro files
  induction files with
  | nil => intro b comps mem _; simp [scannedFiles]
  | cons f fs ih =>
    intro b comps mem hnd
    by_cases htgt : f.parts.contains "target".data
    · have hsc : scannedFiles (f :: fs) = scannedFiles fs := by
        unfold scannedFiles
        rw [List.filter_cons, htgt]
        rfl
      rw [hsc] at hnd
      have hstep : scanStep hashFn (b, comps, mem) f = (b, comps, mem) := by
        unfold scanStep
        rw [htgt]
        rfl
      rw [List.foldl_cons, hstep, hsc]
      exact ih b comps mem hnd
    · have htgt2 : f.parts.contains "target".data = false := by
        simpa using htgt
      have hsc : scannedFiles (f :: fs) = f :: scannedFiles fs := by
        unfold scannedFiles
        rw [List.filter_cons, htgt2]
        rfl
      rw [hsc] at hnd
      rw [List.map_cons, List.nodup_cons] at hnd
      obtain ⟨hrel, hnd2⟩ := hnd
      rw [List.foldl_cons, scanStep_eq hashFn _ _ htgt2]
      have hcongr : ∀ g ∈ scannedFiles fs,
          fileChanged hashFn
            (if fileChanged hashFn mem f then
              dictSet mem (relPathOf f) (get_hash hashFn f.content)
            else mem) g = fileChanged hashFn mem g := by
        intro g hg
        by_cases hch : fileChanged hashFn mem f
        · rw [if_pos hch]
          refine fileChanged_set_other ?_
          intro he
          exact hrel (he ▸ List.mem_map_of_mem relPathOf hg)
        · rw [if_neg hch]
      obtain ⟨ih1, ih2⟩ := ih (b || fileChanged hashFn mem f)
        (match f.content with
         | some content => comps ++ extract_components content (relPathOf f)
         | none => comps)
        (if fileChanged hashFn mem f then
          dictSet mem (relPathOf f) (get_hash hashFn f.content)
        else mem) hnd2
      constructor
      · rw [ih1, anyCongr _ _ _ hcongr, hsc]
        simp [List.any_cons, Bool.or_assoc]
      · intro hall
        rw [hsc] at hall
        simp only [List.any_cons, Bool.or_eq_false_iff] at hall
        obtain ⟨hf, hfs⟩ := hall
        rw [ih2 (by rw [anyCongr _ _ _ hcongr]; exact hfs)]
        rw [if_neg (by simp [hf])]

/-- C4: provided CLAUDE.md exists (and I/O succeeds), `CtlSync.sync_once`
rewrites CLAUDE.md and persists the hash cache exactly when at least one
scanned `.rs` file's hash differs from the hash recorded in the cache; when
no scanned file changed it leaves both CLAUDE.md and the cache file on disk
untouched. -/
theorem C4_sync_once_rewrites_iff (hashFn : List Char → List Char)
    (files : List ScanFile) (mem0 : Cache) (doc : List Char)
    (cacheF : Option Cache) (ts : List Char)
    (hnd : ((scannedFiles files).map relPathOf).Nodup) :
    ((sync_once hashFn true files mem0 ⟨some doc, cacheF⟩ ts).wroteClaude
        = (scannedFiles files).any (fileChanged hashFn mem0)) ∧
    ((sync_once hashFn true files mem0 ⟨some doc, cacheF⟩ ts).wroteCache
        = (scannedFiles files).any (fileChanged hashFn mem0)) ∧
    ((scannedFiles files).any (fileChanged hashFn mem0) = false →
      (sync_once hashFn true files mem0 ⟨some doc, cacheF⟩ ts).fs
        = ⟨some doc, cacheF⟩) := by
  obtain ⟨h1, h2⟩ := scan_fold_spec hashFn files false [] mem0 hnd
  rw [Bool.false_or] at h1
  unfold sync_once scan_crates
  cases hany : (scannedFiles files).any (fileChanged hashFn mem0) with
  | false =>
    rw [hany] at h1
    simp only [if_true]
    rw [h1]
    simp
  | true =>
    rw [hany] at h1
    simp only [if_true]
    rw [h1]
    simp

/-- Witness for C4: one readable file, an empty cache and a constant hash
function; the file counts as changed and both writes happen. -/
theorem C4_sync_once_rewrites_iff_witness :
    ((scannedFiles [c4File]).map relPathOf).Nodup ∧
    ((sync_once c4Hash true [c4File] [] ⟨some "d".data, none⟩ "t".data).wroteClaude
        = (scannedFiles [c4File]).any (fileChanged c4Hash [])) ∧
    (scannedFiles [c4File]).any (fileChanged c4Hash []) = true :=
  ⟨by decide,
   (C4_sync_once_rewrites_iff c4Hash [c4File] [] "d".data none "t".data
      (by decide)).1,
   by decide⟩

/-! ### Claim C5 -/

theorem fmStep_get {L : CursorLayout} {d : HistDir}
    {m : List (RelKey × RestoreInfo)} {rel : RelKey} {info : RestoreInfo}
    (h : dictGet (fmStep L m d) rel = some info) :
    dictGet m rel = some info ∨ dirInfo L d = some (rel, info) := by
  unfold fmStep at h
  cases hd : dirInfo L d with
  | none => rw [hd] at h; exact Or.inl h
  | some ri =>
    obtain ⟨r0, i0⟩ := ri
    rw [hd] at h
    dsimp only at h
    cases hm : dictGet m r0 with
    | none =>
      rw [hm] at h
      dsimp only at h
      by_cases hr : (r0 == rel) = true
      · have heq : r0 = rel := eq_of_beq hr
        subst heq
        rw [dictGet_dictSet] at h
        obtain rfl := Option.some.inj h
        exact Or.inr rfl
      · have hrf : (r0 == rel) = false := Bool.eq_false_iff.mpr hr
        rw [dictGet_dictSet_ne _ _ _ _ hrf] at h
        exact Or.inl h
    | some old =>
      rw [hm] at h
      dsimp only at h
      by_cases hlt : old.timestamp < i0.timestamp
      · rw [if_pos hlt] at h
        by_cases hr : (r0 == rel) = true
        · have heq : r0 = rel := eq_of_beq hr
          subst heq
          rw [dictGet_dictSet] at h
          obtain rfl := Option.some.inj h
          exact Or.inr rfl
        · have hrf : (r0 == rel) = false := Bool.eq_false_iff.mpr hr
          rw [dictGet_dictSet_ne _ _ _ _ hrf] at h
          exact Or.inl h
      · rw [if_neg hlt] at h
        exact Or.inl h

theorem fmStep_beats {L : CursorLayout} {d : HistDir}
    {m : List (RelKey × RestoreInfo)} {rel : RelKey} {info : RestoreInfo}
    (h : dictGet (fmStep L m d) rel = some info) :
    ∀ i2, dirInfo L d = some (rel, i2) →
      i2.timestamp ≤ info.timestamp := by
  intro i2 hd
  unfold fmStep at h
  rw [hd] at h
  dsimp only at h
  cases hm : dictGet m rel with
  | none =>
    rw [hm] at h
    dsimp only at h
    rw [dictGet_dictSet] at h
    obtain rfl := Option.some.inj h
    exact le_refl _
  | some old =>
    rw [hm] at h
    dsimp only at h
    by_cases hlt : old.timestamp < i2.timestamp
    · rw [if_pos hlt, dictGet_dictSet] at h
      obtain rfl := Option.some.inj h
      exact le_refl _
    · rw [if_neg hlt, hm] at h
      obtain rfl := Option.some.inj h
      exact Int.not_lt.mp hlt

theorem fmStep_mono {L : CursorLayout} {d : HistDir}
    {m : List (RelKey × RestoreInfo)} {rel : RelKey} {i0 : RestoreInfo}
    (h : dictGet m rel = some i0) :
    ∃ i, dictGet (fmStep L m d) rel = some i ∧
      i0.timestamp ≤ i.timestamp := by
  unfold fmStep
  cases hd : dirInfo L d with
  | none => exact ⟨i0, h, le_refl _⟩
  | some ri =>
    obtain ⟨r0, i1⟩ := ri
    dsimp only
    cases hm : dictGet m r0 with
    | none =>
      dsimp only
      have hrf : (r0 == rel) = false := by
        by_contra hc
        have hq : (r0 == rel) = true := by
          cases hq2 : (r0 == rel) with
          | true => rfl
          | false => exact absurd hq2 hc
        have heq : r0 = rel := eq_of_beq hq
        subst heq
        rw [hm] at h
        cases h
      exact ⟨i0, by rw [dictGet_dictSet_ne _ _ _ _ hrf]; exact h, le_refl _⟩
    | some old =>
      dsimp only
      by_cases hlt : old.timestamp < i1.timestamp
      · rw [if_pos hlt]
        by_cases hr : (r0 == rel) = true
        · have heq : r0 = rel := eq_of_beq hr
          subst heq
          rw [hm] at h
          obtain rfl := Option.some.inj h
          exact ⟨i1, dictGet_dictSet _ _ _, le_of_lt hlt⟩
        · have hrf : (r0 == rel) = false := Bool.eq_false_iff.mpr hr
          exact ⟨i0, by rw [dictGet_dictSet_ne _ _ _ _ hrf]; exact h,
            le_refl _⟩
      · rw [if_neg hlt]
        exact ⟨i0, h, le_refl _⟩

theorem fmStep_exists_left {L : CursorLayout} {d : HistDir}
    {m : List (RelKey × RestoreInfo)} {rel : RelKey} {i2 : RestoreInfo}
    (hd : dirInfo L d = some (rel, i2)) :
    ∃ i, dictGet (fmStep L m d) rel = some i := by
  unfold fmStep
  rw [hd]
  dsimp only
  cases hm : dictGet m rel with
  | none => exact ⟨i2, dictGet_dictSet _ _ _⟩
  | some old =>
    dsimp only
    by_cases hlt : old.timestamp < i2.timestamp
    · rw [if_pos hlt]; exact ⟨i2, dictGet_dictSet _ _ _⟩
    · rw [if_neg hlt]; exact ⟨old, hm⟩

theorem fm_fold_get (L : CursorLayout) :
    ∀ (ds : List HistDir) (m : List (RelKey × RestoreInfo))
      (rel : RelKey) (info : RestoreInfo),
      dictGet (ds.foldl (fmStep L) m) rel = some info →
      dictGet m rel = some info ∨
        ∃ d ∈ ds, dirInfo L d = some (rel, info) := by
  intro ds
  induction ds with
  | nil => intro m rel info h; exact Or.inl h
  | cons d rest ih =>
    intro m rel info h
    rw [List.foldl_cons] at h
    rcases ih _ rel info h with h2 | ⟨d2, hd2, hdi⟩
    · rcases fmStep_get h2 with h3 | h3
      · exact Or.inl h3
      · exact Or.inr ⟨d, by simp, h3⟩
    · exact Or.inr ⟨d2, by simp [hd2], hdi⟩

theorem fm_fold_mono (L : CursorLayout) :
    ∀ (ds : List HistDir) (m : List (RelKey × RestoreInfo))
      (rel : RelKey) (i0 : RestoreInfo),
      dictGet m rel = some i0 →
      ∃ i, dictGet (ds.foldl (fmStep L) m) rel = some i ∧
        i0.timestamp ≤ i.timestamp := by
  intro ds
  induction ds with
  | nil => intro m rel i0 h; exact ⟨i0, h, le_refl _⟩
  | cons d rest ih =>
    intro m rel i0 h
    rw [List.foldl_cons]
    obtain ⟨i1, h1, hle1⟩ := fmStep_mono (d := d) h
    obtain ⟨i2, h2, hle2⟩ := ih _ rel i1 h1
    exact ⟨i2, h2, le_trans hle1 hle2⟩

theorem fm_fold_beats (L : CursorLayout) :
    ∀ (ds : List HistDir) (m : List (RelKey × RestoreInfo))
      (rel : RelKey) (info : RestoreInfo),
      dictGet (ds.foldl (fmStep L) m) rel = some info →
      ∀ d ∈ ds, ∀ i2, dirInfo L d = some (rel, i2) →
        i2.timestamp ≤ info.timestamp := by
  intro ds
  induction ds with
  | nil => intro m rel info _ d hd; simp at hd
  | cons d0 rest ih =>
    intro m rel info h d hd i2 hdi
    rw [List.foldl_cons] at h
    rcases List.mem_cons.mp hd with rfl | hmem
    · obtain ⟨i1, hi1⟩ := fmStep_exists_left (m := m) hdi
      have hle1 : i2.timestamp ≤ i1.timestamp := fmStep_beats hi1 i2 hdi
      obtain ⟨i3, hi3, hle3⟩ := fm_fold_mono L rest _ rel i1 hi1
      rw [h] at hi3
      obtain rfl := Option.some.inj hi3
      exact le_trans hle1 hle3
    · exact ih _ rel info h d hmem i2 hdi

theorem fm_fold_exists (L : CursorLayout) :
    ∀ (ds : List HistDir) (m : List (RelKey × RestoreInfo)) (rel : RelKey),
      ((∃ d ∈ ds, ∃ i2, dirInfo L d = some (rel, i2)) ∨
        ∃ i, dictGet m rel = some i) →
      ∃ i, dictGet (ds.foldl (fmStep L) m) rel = some i := by
  intro ds
  induction ds with
  | nil =>
    intro m rel h
    rcases h with ⟨d, hd, _⟩ | ⟨i, hi⟩
    · simp at hd
    · exact ⟨i, hi⟩
  | cons d0 rest ih =>
    intro m rel h
    rw [List.foldl_cons]
    rcases h with ⟨d, hd, i2, hdi⟩ | ⟨i, hi⟩
    · rcases List.mem_cons.mp hd with rfl | hmem
      · obtain ⟨i1, hi1⟩ := fmStep_exists_left (m := m) hdi
        obtain ⟨i3, hi3, _⟩ := fm_fold_mono L rest _ rel i1 hi1
        exact ⟨i3, hi3⟩
      · exact ih _ rel (Or.inl ⟨d, hmem, i2, hdi⟩)
    · obtain ⟨i1, hi1, _⟩ := fmStep_mono (d := d0) hi
      obtain ⟨i3, hi3, _⟩ := fm_fold_mono L rest _ rel i1 hi1
      exact ⟨i3, hi3⟩

theorem restore_fold (L : CursorLayout) :
    ∀ (m : List (RelKey × RestoreInfo)) (a b : Nat)
      (ops : List ((List Char × List Char) × List Char)),
      m.foldl (restoreStep L) (a, b, ops)
        = (a + (m.filter
              (fun p => L.copyOk p.2.source.1 p.2.source.2)).length,
           b + (m.filter
              (fun p => !(L.copyOk p.2.source.1 p.2.source.2))).length,
           ops ++ m.map (fun p => (p.2.source, p.2.target))) := by
  intro m
  induction m with
  | nil => intro a b ops; simp
  | cons p ps ih =>
    intro a b ops
    rw [List.foldl_cons]
    by_cases hok : L.copyOk p.2.source.1 p.2.source.2
    · have hstep : restoreStep L (a, b, ops) p
          = (a + 1, b, ops ++ [(p.2.source, p.2.target)]) := by
        unfold restoreStep
        rw [if_pos hok]
      rw [hstep, ih]
      simp [List.filter_cons, hok]
      omega
    · have hokf : L.copyOk p.2.source.1 p.2.source.2 = false :=
        Bool.eq_false_iff.mpr hok
      have hstep : restoreStep L (a, b, ops) p
          = (a, b + 1, ops ++ [(p.2.source, p.2.target)]) := by
        unfold restoreStep
        rw [if_neg hok]
      rw [hstep, ih]
      simp [List.filter_cons, hokf]
      omega

/-- C5: `find_magray_files` maps each relative project path to a single
history file: the mapped record comes from a qualifying history directory
(resource mentioning MAGRAY_Cli, non-empty entries, existing last-entry
file, path below the project root) whose last-entry timestamp is maximal
among all qualifying directories for that path, and every qualifying
directory's path is mapped; `restore_files` then performs exactly the
selected copies and returns the pair (number of successful copies, number
of failed copies). -/
theorem C5_find_magray_and_restore (L : CursorLayout) :
    (∀ rel info, dictGet (find_magray_files L) rel = some info →
       (∃ d ∈ L.dirs, dirInfo L d = some (rel, info)) ∧
       (∀ d ∈ L.dirs, ∀ info2, dirInfo L d = some (rel, info2) →
         info2.timestamp ≤ info.timestamp))
  ∧ (∀ d ∈ L.dirs, ∀ rel info2, dirInfo L d = some (rel, info2) →
       ∃ info, dictGet (find_magray_files L) rel = some info)
  ∧ (∀ m : List (RelKey × RestoreInfo),
       (restore_files L m).2.2
           = m.map (fun p => (p.2.source, p.2.target)) ∧
       (restore_files L m).1
           = (m.filter
              (fun p => L.copyOk p.2.source.1 p.2.source.2)).length ∧
       (restore_files L m).2.1
           = (m.filter
              (fun p => !(L.copyOk p.2.source.1 p.2.source.2))).length) := by
  refine ⟨fun rel info h => ⟨?_, ?_⟩, fun d hd rel info2 hdi => ?_, fun m => ?_⟩
  · rcases fm_fold_get L L.dirs [] rel info h with h2 | h2
    · cases h2
    · exact h2
  · exact fm_fold_beats L L.dirs [] rel info h
  · exact fm_fold_exists L L.dirs [] rel (Or.inl ⟨d, hd, info2, hdi⟩)
  · unfold restore_files
    rw [restore_fold]
    simp

/-- Witness for C5 on the concrete layout: the directory with the newer
last entry (timestamp 5) wins, and its timestamp bounds every qualifying
directory's. -/
theorem C5_find_magray_and_restore_witness :
    dictGet (find_magray_files c5Layout) ["src".data, "a.rs".data]
        = some ⟨("d2".data, "e2".data),
            "C:\\Users\\1\\Documents\\GitHub\\MAGRAY_Cli\\src\\a.rs".data, 5⟩ ∧
    (∀ d ∈ c5Layout.dirs, ∀ info2,
       dirInfo c5Layout d = some (["src".data, "a.rs".data], info2) →
       info2.timestamp ≤ 5) :=
  ⟨rfl,
   ((C5_find_magray_and_restore c5Layout).1
      ["src".data, "a.rs".data] _ rfl).2⟩

/-! ### Claim C6 -/

theorem foldl_collectStep_eq_filterMap {α β : Type} (f : α → Option β) :
    ∀ (l : List α) (acc : List β),
      l.foldl (collectStep f) acc = acc ++ l.filterMap f := by
  intro l
  induction l with
  | nil => intro acc; simp
  | cons x xs ih =>
    intro acc
    simp only [List.foldl_cons, List.filterMap_cons]
    cases hf : f x with
    | none => simp [collectStep, hf, ih]
    | some b => simp [collectStep, hf, ih]

theorem filter_length_pos_iff {α : Type} (p : α → Bool) (l : List α) :
    0 < (l.filter p).length ↔ ∃ a ∈ l, p a = true := by
  rw [List.length_pos]
  constructor
  · intro h
    by_contra hc
    push_neg at hc
    exact h (List.filter_eq_nil_iff.mpr (fun a ha => by
      intro hp
      exact absurd hp (by simpa using hc a ha)))
  · intro ⟨a, ha, hp⟩ hnil
    exact absurd hp (List.filter_eq_nil_iff.mp hnil a ha)

/-- C6: `analyze_regression` marks a benchmark present in both collections
as a regression exactly when the normalized change exceeds 5 percent
(zero normalized baselines are skipped), with severity critical above 25,
major above 10 and minor otherwise; `run_analysis` exits 2 when there is a
critical-severity change or a critical-threshold violation, 1 when there
are major changes but no critical issues or when the current results are
empty (a failed load), and 0 otherwise. -/
theorem C6_benchmark_regression_spec
    (current baseline : List (List Char × BenchmarkRes))
    (baseOpt : Option (List (List Char × BenchmarkRes))) :
    (∀ r ∈ analyze_regression current baseline,
       r.is_regression = decide (r.change_percent > 5) ∧
       r.severity = (if r.change_percent > 25 then "critical".data
                     else if r.change_percent > 10 then "major".data
                     else "minor".data) ∧
       ∃ curRes baseRes,
         (r.benchmark_name, curRes) ∈ current ∧
         dictGet baseline r.benchmark_name = some baseRes ∧
         r.current_value = normalize_unit curRes.value curRes.unit ∧
         r.baseline_value = normalize_unit baseRes.value baseRes.unit ∧
         r.baseline_value ≠ 0 ∧
         r.change_percent
           = (r.current_value - r.baseline_value) / r.baseline_value * 100)
  ∧ (∀ name curRes baseRes, (name, curRes) ∈ current →
       dictGet baseline name = some baseRes →
       normalize_unit baseRes.value baseRes.unit ≠ 0 →
       (normalize_unit curRes.value curRes.unit
          - normalize_unit baseRes.value baseRes.unit)
          / normalize_unit baseRes.value baseRes.unit * 100 > 5 →
       ∃ r ∈ analyze_regression current baseline,
         r.benchmark_name = name ∧ r.is_regression = true)
  ∧ (run_analysis current baseOpt = 2 ↔
       ¬ current.isEmpty = true ∧
       ((∃ r ∈ regressionsOf current baseOpt, r.severity = "critical".data)
         ∨ check_critical_thresholds current ≠ []))
  ∧ (run_analysis current baseOpt = 1 ↔
       current.isEmpty = true ∨
       (¬ current.isEmpty = true ∧
        ¬ ((∃ r ∈ regressionsOf current baseOpt,
              r.severity = "critical".data)
            ∨ check_critical_thresholds current ≠ []) ∧
        (∃ r ∈ regressionsOf current baseOpt, r.severity = "major".data)))
  ∧ (run_analysis current baseOpt = 0 ↔
       ¬ current.isEmpty = true ∧
       ¬ ((∃ r ∈ regressionsOf current baseOpt, r.severity = "critical".data)
           ∨ check_critical_thresholds current ≠ []) ∧
       ¬ (∃ r ∈ regressionsOf current baseOpt,
            r.severity = "major".data)) := by
  have hcritIff : 0 < ((regressionsOf current baseOpt).filter
        (fun r => r.severity == "critical".data)).length
          + (check_critical_thresholds current).length ↔
      (∃ r ∈ regressionsOf current baseOpt, r.severity = "critical".data)
        ∨ check_critical_thresholds current ≠ [] := by
    constructor
    · intro h
      by_cases h1 : 0 < ((regressionsOf current baseOpt).filter
          (fun r => r.severity == "critical".data)).length
      · exact Or.inl (by simpa [beq_iff_eq] using
          (filter_length_pos_iff _ _).mp h1)
      · refine Or.inr (List.length_pos.mp ?_)
        omega
    · intro h
      rcases h with h | h
      · have := (filter_length_pos_iff
          (fun (r : RegressionRes) => r.severity == "critical".data) _).mpr
          (by simpa [beq_iff_eq] using h)
        omega
      · have := List.length_pos.mpr h
        omega
  have hmajIff : 0 < ((regressionsOf current baseOpt).filter
        (fun r => r.severity == "major".data)).length ↔
      ∃ r ∈ regressionsOf current baseOpt, r.severity = "major".data := by
    rw [filter_length_pos_iff (fun (r : RegressionRes) => r.severity == "major".data)]
    simp [beq_iff_eq]
  refine ⟨?_, ?_, ?_, ?_, ?_⟩
  · intro r hr
    rw [analyze_regression, foldl_collectStep_eq_filterMap,
      List.nil_append] at hr
    obtain ⟨p, hp, hf⟩ := List.mem_filterMap.mp hr
    unfold analyzeOne at hf
    cases hg : dictGet baseline p.1 with
    | none => rw [hg] at hf; cases hf
    | some baseRes =>
      rw [hg] at hf
      dsimp only at hf
      by_cases hbn : normalize_unit baseRes.value baseRes.unit = 0
      · rw [if_pos hbn] at hf; cases hf
      · rw [if_neg hbn] at hf
        by_cases hcond : (decide ((normalize_unit p.2.value p.2.unit
              - normalize_unit baseRes.value baseRes.unit)
              / normalize_unit baseRes.value baseRes.unit * 100 > 5) ||
            decide (|(normalize_unit p.2.value p.2.unit
              - normalize_unit baseRes.value baseRes.unit)
              / normalize_unit baseRes.value baseRes.unit * 100| > 2)) = true
        · rw [if_pos hcond] at hf
          obtain rfl := Option.some.inj hf
          refine ⟨rfl, rfl, p.2, baseRes, ?_, hg, rfl, rfl, hbn, rfl⟩
          simpa using hp
        · rw [if_neg (by simpa using hcond)] at hf
          cases hf
  · intro name curRes baseRes hmem hg hbn h5
    have h5d : decide ((normalize_unit curRes.value curRes.unit
        - normalize_unit baseRes.value baseRes.unit)
        / normalize_unit baseRes.value baseRes.unit * 100 > 5) = true :=
      decide_eq_true h5
    have hf : analyzeOne baseline (name, curRes)
        = some ⟨name,
            normalize_unit curRes.value curRes.unit,
            normalize_unit baseRes.value baseRes.unit,
            (normalize_unit curRes.value curRes.unit
              - normalize_unit baseRes.value baseRes.unit)
              / normalize_unit baseRes.value baseRes.unit * 100,
            true,
            if (normalize_unit curRes.value curRes.unit
                - normalize_unit baseRes.value baseRes.unit)
                / normalize_unit baseRes.value baseRes.unit * 100 > 25 then
              "critical".data
            else if (normalize_unit curRes.value curRes.unit
                - normalize_unit baseRes.value baseRes.unit)
                / normalize_unit baseRes.value baseRes.unit * 100 > 10 then
              "major".data
            else "minor".data⟩ := by
      unfold analyzeOne
      rw [hg]
      dsimp only
      rw [if_neg hbn]
      rw [h5d]
      simp
    have hmem2 := List.mem_filterMap.mpr ⟨(name, curRes), hmem, hf⟩
    rw [analyze_regression, foldl_collectStep_eq_filterMap, List.nil_append]
    exact ⟨_, hmem2, rfl, rfl⟩
  · unfold run_analysis
    by_cases hemp : current.isEmpty = true
    · rw [if_pos hemp]
      exact iff_of_false (by omega) (fun h => h.1 hemp)
    · rw [if_neg hemp]
      dsimp only
      by_cases hcrit : 0 < ((regressionsOf current baseOpt).filter
            (fun r => r.severity == "critical".data)).length
          + (check_critical_thresholds current).length
      · rw [if_pos hcrit]
        exact iff_of_true rfl ⟨hemp, hcritIff.mp hcrit⟩
      · rw [if_neg hcrit]
        have hnc := (not_iff_not.mpr hcritIff).mp hcrit
        refine iff_of_false ?_ (fun h => hnc h.2)
        by_cases hmaj : 0 < ((regressionsOf current baseOpt).filter
            (fun r => r.severity == "major".data)).length
        · rw [if_pos hmaj]; omega
        · rw [if_neg hmaj]; omega
  · unfold run_analysis
    by_cases hemp : current.isEmpty = true
    · rw [if_pos hemp]
      exact iff_of_true rfl (Or.inl hemp)
    · rw [if_neg hemp]
      dsimp only
      by_cases hcrit : 0 < ((regressionsOf current baseOpt).filter
            (fun r => r.severity == "critical".data)).length
          + (check_critical_thresholds current).length
      · rw [if_pos hcrit]
        refine iff_of_false (by omega) ?_
        rintro (h | ⟨_, hnd, _⟩)
        · exact hemp h
        · exact hnd (hcritIff.mp hcrit)
      · rw [if_neg hcrit]
        have hnc := (not_iff_not.mpr hcritIff).mp hcrit
        by_cases hmaj : 0 < ((regressionsOf current baseOpt).filter
            (fun r => r.severity == "major".data)).length
        · rw [if_pos hmaj]
          exact iff_of_true rfl (Or.inr ⟨hemp, hnc, hmajIff.mp hmaj⟩)
        · rw [if_neg hmaj]
          refine iff_of_false (by omega) ?_
          rintro (h | ⟨_, _, hm⟩)
          · exact hemp h
          · exact (not_iff_not.mpr hmajIff).mp hmaj hm
  · unfold run_analysis
    by_cases hemp : current.isEmpty = true
    · rw [if_pos hemp]
      exact iff_of_false (by omega) (fun h => h.1 hemp)
    · rw [if_neg hemp]
      dsimp only
      by_cases hcrit : 0 < ((regressionsOf current baseOpt).filter
            (fun r => r.severity == "critical".data)).length
          + (check_critical_thresholds current).length
      · rw [if_pos hcrit]
        exact iff_of_false (by omega) (fun h => h.2.1 (hcritIff.mp hcrit))
      · rw [if_neg hcrit]
        have hnc := (not_iff_not.mpr hcritIff).mp hcrit
        by_cases hmaj : 0 < ((regressionsOf current baseOpt).filter
            (fun r => r.severity == "major".data)).length
        · rw [if_pos hmaj]
          exact iff_of_false (by omega)
            (fun h => h.2.2 (hmajIff.mp hmaj))
        · rw [if_neg hmaj]
          exact iff_of_true rfl
            ⟨hemp, hnc, (not_iff_not.mpr hmajIff).mp hmaj⟩

/-- Witness for C6: a benchmark that doubled from 5 ms to 10 ms (a +100%
change) is reported as a regression. -/
theorem C6_benchmark_regression_spec_witness :
    ("a".data, (⟨10, "ms".data⟩ : BenchmarkRes))
        ∈ [("a".data, (⟨10, "ms".data⟩ : BenchmarkRes))] ∧
    dictGet [("a".data, (⟨5, "ms".data⟩ : BenchmarkRes))] "a".data
        = some ⟨5, "ms".data⟩ ∧
    ∃ r ∈ analyze_regression [("a".data, ⟨10, "ms".data⟩)]
        [("a".data, ⟨5, "ms".data⟩)],
      r.benchmark_name = "a".data ∧ r.is_regression = true :=
  ⟨by simp, rfl,
   (C6_benchmark_regression_spec [("a".data, ⟨10, "ms".data⟩)]
      [("a".data, ⟨5, "ms".data⟩)] none).2.1 "a".data ⟨10, "ms".data⟩
      ⟨5, "ms".data⟩ (by simp) rfl
      (by
        have h1 : normalize_unit (5 : ℚ) "ms".data = 5 * 1 := rfl
        rw [h1]; norm_num)
      (by
        have h1 : normalize_unit (10 : ℚ) "ms".data = 10 * 1 := rfl
        have h2 : normalize_unit (5 : ℚ) "ms".data = 5 * 1 := rfl
        rw [h1, h2]; norm_num)⟩

/-! ### Claim C2 -/

theorem foldl_extractStep_eq_filterMap (parseLine : List Char → Nat → List Char → Option JObj)
    (filePath : List Char) (l : List (Nat × List Char)) (acc : List JObj) :
    l.foldl (extractStep parseLine filePath) acc
      = acc ++ l.filterMap (fun nl => parseLine nl.2 nl.1 filePath) := by
  induction l generalizing acc with
  | nil => simp
  | cons x xs ih =>
    simp only [List.foldl_cons, List.filterMap_cons]
    cases hf : parseLine x.2 x.1 filePath with
    | none => simp [extractStep, hf, ih]
    | some b => simp [extractStep, hf, ih]

/-- C2: `Ctl2Parser.extract_from_file` returns, in increasing line order
(lines numbered from 1), exactly one component for every line whose leftmost
match of the case-insensitive pattern `//\s*@component:\s*(\{.*\})` has a
capture group that parses as a JSON object, each component being that object
with key `x_file` set to `<path>:<line>` (backslashes of the path replaced
by `/`); all other lines contribute nothing. -/
theorem C2_ctl2_extract_from_file_spec (content filePath : List Char) :
    ctl2_extract_from_file content filePath
      = (List.enumFrom 1 (splitLines content)).filterMap
          (fun nl =>
            match ctl2Capture nl.2 with
            | none => none
            | some jsonStr =>
              match jsonParse jsonStr with
              | some (Json.obj kvs) =>
                some (dictSet kvs xFileKey
                  (Json.str (fileLocation filePath nl.1)))
              | _ => none) := by
  refine (foldl_extractStep_eq_filterMap ctl2_parse_line filePath
    (List.enumFrom 1 (splitLines content)) []).trans ?_
  rw [List.nil_append]
  congr 1

/-- Witness for C1 on a concrete document containing both markers. -/
theorem C1_replace_architecture_section_frame_witness :
    firstOccFrom startMarker
      "AB# AUTO-GENERATED ARCHITECTURExyz# AUTO-GENERATED COMPONENT STATUSqq".data
      0 2 ∧
    firstOccFrom endMarker
      "AB# AUTO-GENERATED ARCHITECTURExyz# AUTO-GENERATED COMPONENT STATUSqq".data
      2 34 ∧
    replace_architecture_section
      "AB# AUTO-GENERATED ARCHITECTURExyz# AUTO-GENERATED COMPONENT STATUSqq".data
      "NEW".data
      = "AB# AUTO-GENERATED ARCHITECTURExyz# AUTO-GENERATED COMPONENT STATUSqq".data.take 2
        ++ "NEW".data ++ nl2
        ++ "AB# AUTO-GENERATED ARCHITECTURExyz# AUTO-GENERATED COMPONENT STATUSqq".data.drop 34 :=
  ⟨by decide, by decide,
    (C1_replace_architecture_section_frame _ _).2.1 2 34 (by decide) (by decide)⟩

end MagraySpec
